import Mathlib

set_option maxHeartbeats 1000000
set_option maxRecDepth 100000

/-!
Shallow embedding of the extraction-and-graph-construction pipeline of
`extract_to_neo4j.py` (Heimdall knowledge-graph extraction script), together
with proofs about the embedded definitions.

Strings are modelled as `String` / `List Char`; Python string methods and the
fixed regular expressions of the script are translated into executable Lean
functions over character lists.  Numeric relationship scores (Python floats)
are modelled as exact rationals `ℚ`.  External collaborators (the spaCy NLP
model, the Ollama embedding service, the Neo4j store, `hashlib.md5`) are not
part of the repository; where a claim depends on them they are modelled as
explicit parameters or, for the graph store's merge-by-key contract, from the
specification's description.
-/

/-- Python regex `\w` on ASCII text: letters, digits, underscore. -/
def isWordChar (c : Char) : Bool := c.isAlphanum || c = '_'

/-- Python regex `\s` / `str.strip` whitespace (ASCII fragment). -/
def isSpaceChar (c : Char) : Bool := c.isWhitespace

/-- Python regex `\d` (ASCII digit). -/
def isDig (c : Char) : Bool := decide (48 ≤ c.toNat ∧ c.toNat ≤ 57)

/-- `s.strip()`: remove leading and trailing whitespace. -/
def stripWS (cs : List Char) : List Char :=
  ((cs.dropWhile isSpaceChar).reverse.dropWhile isSpaceChar).reverse

/-- `s.lower()` on ASCII text. -/
def toLowerL (cs : List Char) : List Char := cs.map Char.toLower

/-- `a` is a leading segment of `b` (used to model Python substring search). -/
def startsL : List Char → List Char → Bool
  | [], _ => true
  | _ :: _, [] => false
  | a :: as, b :: bs => a = b && startsL as bs

/-- Python `a in b` (substring containment) on character lists. -/
def subL (a : List Char) : List Char → Bool
  | [] => startsL a []
  | b :: bs => startsL a (b :: bs) || subL a bs

/-- Python `a in b` on strings. -/
def pyIn (a b : String) : Bool := subL a.data b.data

/-- Python `s.strip()` on strings. -/
def pyStrip (s : String) : String := String.mk (stripWS s.data)

/-- Python `s.lower()` on strings. -/
def pyLower (s : String) : String := String.mk (toLowerL s.data)

/-! ### Date extraction (`extract_date_from_title`, lines 118-138)

Each of the four regular expressions tried by the Python function is a
fixed-width pattern; `re.search` finds its leftmost occurrence.  The patterns
are modelled as matchers at a position plus a left-to-right scanner. -/

/-- Matcher for `(20\d{2}-\d{2}-\d{2})` at the start of the list; returns the
matched text (which the Python code returns unchanged). -/
def matchFullAt : List Char → Option (List Char)
  | c1 :: c2 :: a :: b :: s1 :: c :: d :: s2 :: e :: f :: _ =>
    if c1 = '2' ∧ c2 = '0' ∧ s1 = '-' ∧ s2 = '-' ∧ isDig a ∧ isDig b ∧ isDig c ∧
        isDig d ∧ isDig e ∧ isDig f then
      some ['2', '0', a, b, '-', c, d, '-', e, f]
    else none
  | _ => none

/-- Matcher for `(20\d{2})[-_](\d{2})[-_](\d{2})` at the start of the list;
returns the date reassembled with `-` separators as the Python f-string does. -/
def matchSepAt : List Char → Option (List Char)
  | c1 :: c2 :: a :: b :: s1 :: c :: d :: s2 :: e :: f :: _ =>
    if c1 = '2' ∧ c2 = '0' ∧ (s1 = '-' ∨ s1 = '_') ∧ (s2 = '-' ∨ s2 = '_') ∧
        isDig a ∧ isDig b ∧ isDig c ∧ isDig d ∧ isDig e ∧ isDig f then
      some ['2', '0', a, b, '-', c, d, '-', e, f]
    else none
  | _ => none

/-- Matcher for `(20\d{2})[-_](\d{2})` at the start of the list; the day
defaults to `01` as in `f"{y}-{m}-01"`. -/
def matchYMAt : List Char → Option (List Char)
  | c1 :: c2 :: a :: b :: s1 :: c :: d :: _ =>
    if c1 = '2' ∧ c2 = '0' ∧ (s1 = '-' ∨ s1 = '_') ∧ isDig a ∧ isDig b ∧
        isDig c ∧ isDig d then
      some ['2', '0', a, b, '-', c, d, '-', '0', '1']
    else none
  | _ => none

/-- True when the list is empty or its head is not a word character (the
right-hand side of a regex word boundary after a word character). -/
def headNotWord : List Char → Bool
  | [] => true
  | c :: _ => !(isWordChar c)

/-- Matcher for `\b(20\d{2})\b` at the start of the list, given whether the
preceding character (if any) is a word character; month and day default to
`01` as in `f"{y}-01-01"`. -/
def matchYearAt (prevWord : Bool) (l : List Char) : Option (List Char) :=
  match l with
  | c1 :: c2 :: a :: b :: rest =>
    if c1 = '2' ∧ c2 = '0' ∧ isDig a ∧ isDig b ∧ prevWord = false ∧
        headNotWord rest then
      some ['2', '0', a, b, '-', '0', '1', '-', '0', '1']
    else none
  | _ => none

/-- Leftmost-match scanner: `re.search` for a fixed-width pattern given by a
matcher-at-a-position. -/
def scanOpt (m : List Char → Option (List Char)) : List Char → Option (List Char)
  | [] => m []
  | c :: rest =>
    match m (c :: rest) with
    | some r => some r
    | none => scanOpt m rest

/-- Leftmost-match scanner for `\b(20\d{2})\b`, threading whether the previous
character is a word character (for the left word boundary). -/
def searchYear (prevWord : Bool) : List Char → Option (List Char)
  | [] => none
  | c :: rest =>
    match matchYearAt prevWord (c :: rest) with
    | some r => some r
    | none => searchYear (isWordChar c) rest

/-- `extract_date_from_title` (lines 118-138): try, in order, full
`20\d{2}-\d{2}-\d{2}`, separator form `(20\d{2})[-_](\d{2})[-_](\d{2})`,
year-month `(20\d{2})[-_](\d{2})` with day `01`, then bare `\b(20\d{2})\b`
with month and day `01`; return the first match, else `none`. -/
def extract_date_from_title (title : String) : Option String :=
  match scanOpt matchFullAt title.data with
  | some r => some (String.mk r)
  | none =>
    match scanOpt matchSepAt title.data with
    | some r => some (String.mk r)
    | none =>
      match scanOpt matchYMAt title.data with
      | some r => some (String.mk r)
      | none =>
        match searchYear false title.data with
        | some r => some (String.mk r)
        | none => none

/-! ### Deterministic meeting id (`generate_meeting_id`, lines 589-592)

`hashlib.md5(...).hexdigest()` is an external library routine; it is a fixed
pure function of its input bytes, modelled here as an arbitrary function
parameter `md5hex`. -/

/-- The string hashed by `generate_meeting_id`:
`f"{title.strip().lower()}_{date or ''}"`. -/
def meeting_id_base (title : String) (date : Option String) : String :=
  pyLower (pyStrip title) ++ "_" ++ date.getD ""

/-- `generate_meeting_id` (lines 589-592), parameterized by the pure hash
function `md5hex` standing for `hashlib.md5(...).hexdigest()`. -/
def generate_meeting_id (md5hex : String → String) (title : String)
    (date : Option String) : String :=
  md5hex (meeting_id_base title date)

/-! ### Derived views of an extracted date used to state the year-range claim -/

/-- Numeric value of an ASCII digit character. -/
def digitVal (c : Char) : Nat := c.toNat - 48

/-- The year denoted by the first four characters of a date list. -/
def yearNumL : List Char → Nat
  | a :: b :: c :: d :: _ =>
    1000 * digitVal a + 100 * digitVal b + 10 * digitVal c + digitVal d
  | _ => 0

/-- The year denoted by the first four characters of a date string. -/
def yearNum (s : String) : Nat := yearNumL s.data

/-- The list of characters is literally `20XX-XX-XX` with `X` ASCII digits. -/
def dateShape (s : List Char) : Prop :=
  ∃ a b c d e f, isDig a ∧ isDig b ∧ isDig c ∧ isDig d ∧ isDig e ∧ isDig f ∧
    s = ['2', '0', a, b, '-', c, d, '-', e, f]

/-! ### Entity resolution (`normalize_name`, `is_same_entity`, lines 658-698) -/

/-- The honorific tokens removed by `normalize_name`
(`mr|mrs|ms|dr|prof|sir`). -/
def honorifics : List (List Char) :=
  [['m', 'r'], ['m', 'r', 's'], ['m', 's'], ['d', 'r'],
   ['p', 'r', 'o', 'f'], ['s', 'i', 'r']]

/-- State machine for
`re.sub(r'\\b(mr|mrs|ms|dr|prof|sir)\\b\\.?\\s*', '', s)` on a string made of
word characters and whitespace only (the form `normalize_name` produces before
this substitution, all punctuation having been removed): each maximal
word-character run equal to an honorific is removed together with the
whitespace run following it (`\\.?` can never match since periods are gone).
`run` is the reversed word-character run read so far; `skipping` records that
the whitespace run following a removed honorific is being consumed. -/
def removeHonAux (run : List Char) (skipping : Bool) : List Char → List Char
  | [] => if run.reverse ∈ honorifics then [] else run.reverse
  | c :: rest =>
    if isWordChar c then removeHonAux (c :: run) false rest
    else
      if run = [] then
        if skipping && isSpaceChar c then removeHonAux [] true rest
        else c :: removeHonAux [] false rest
      else
        if run.reverse ∈ honorifics then
          if isSpaceChar c then removeHonAux [] true rest
          else c :: removeHonAux [] false rest
        else run.reverse ++ c :: removeHonAux [] false rest

/-- The honorific-stripping substitution of `normalize_name`. -/
def removeHon (cs : List Char) : List Char := removeHonAux [] false cs

/-- `normalize_name` (lines 658-666): empty guard, lower-case, strip
punctuation (`re.sub(r'[^\w\s]', '', ...)`), strip honorific tokens, strip
surrounding whitespace. -/
def normalize_name (name : String) : String :=
  if name = "" then ""
  else
    String.mk (stripWS (removeHon
      ((toLowerL name.data).filter (fun c => isWordChar c || isSpaceChar c))))

/-- Python `s.split()` with no argument: split on whitespace runs, discarding
empty tokens.  `acc` is the reversed current token. -/
def pySplitAux (acc : List Char) : List Char → List (List Char)
  | [] => if acc = [] then [] else [acc.reverse]
  | c :: rest =>
    if isSpaceChar c then
      if acc = [] then pySplitAux [] rest
      else acc.reverse :: pySplitAux [] rest
    else pySplitAux (c :: acc) rest

/-- Python `s.split()` with no argument. -/
def pySplit (cs : List Char) : List (List Char) := pySplitAux [] cs

/-- The decision chain of `is_same_entity` after both names have been
normalized (lines 676-698): exact equality; mutual substring containment with
both lengths > 3; equal first tokens of length > 2; equal last tokens of
length > 3. -/
def sameCore (n1 n2 : List Char) : Bool :=
  if n1 = n2 then true
  else if (n1.length > 3 ∧ n2.length > 3) ∧ (subL n1 n2 ∨ subL n2 n1) then true
  else
    match pySplit n1, pySplit n2 with
    | p1 :: t1, p2 :: t2 =>
      if p1 = p2 ∧ p1.length > 2 then true
      else if (p1 :: t1).getLastD p1 = (p2 :: t2).getLastD p2 ∧
          ((p1 :: t1).getLastD p1).length > 3 then true
      else false
    | _, _ => false

/-- `is_same_entity` (lines 669-698): `False` when either raw name is empty,
otherwise the decision chain on the two normalized names. -/
def is_same_entity (name1 name2 : String) : Bool :=
  if name1 = "" ∨ name2 = "" then false
  else sameCore (normalize_name name1).data (normalize_name name2).data

/-! ### Node validation (`validate_node_data`, lines 553-587) and the
extract-phase accumulation of `batch_process_files` (lines 966-980) -/

/-- Property bag of an extracted node, restricted to the fields inspected by
`validate_node_data`; a field absent from the Python property dictionary is
`none`. -/
structure VNode where
  labels : List String
  title : Option String := none
  name : Option String := none
  value : Option String := none
  text : Option String := none
  content : Option String := none
  date : Option String := none
deriving DecidableEq

/-- The `required_fields` table of `validate_node_data` (lines 555-567). -/
def required_fields : List (String × List String) :=
  [("Document", ["title"]), ("Person", ["name"]), ("Module", ["name"]),
   ("Service", ["name"]), ("Team", ["name"]), ("Process", ["name"]),
   ("Topic", ["name"]), ("BusinessObject", ["name"]), ("Date", ["value"]),
   ("Decision", ["text"]), ("ActionItem", ["text"])]

/-- First-match association lookup (Python dict access). -/
def findKey {α : Type} : List (String × α) → String → Option α
  | [], _ => none
  | (k, v) :: rest, key => if k = key then some v else findKey rest key

/-- `node.get(field)` for the fields relevant to validation. -/
def getField (n : VNode) : String → Option String
  | "title" => n.title
  | "name" => n.name
  | "value" => n.value
  | "text" => n.text
  | "content" => n.content
  | "date" => n.date
  | _ => none

/-- Python truthiness of `node.get(field)`: the field is present and is a
nonempty string. -/
def truthyS : Option String → Bool
  | none => false
  | some s => decide (s ≠ "")

/-- `re.match(r'^\d{4}-\d{2}-\d{2}$', str(s))`: four digits, dash, two
digits, dash, two digits spanning the whole string (`$` also matches just
before a single trailing newline). -/
def pyDateFmt : List Char → Bool
  | [a, b, c, d, '-', e, f, '-', g, h] =>
    isDig a && isDig b && isDig c && isDig d &&
      isDig e && isDig f && isDig g && isDig h
  | [a, b, c, d, '-', e, f, '-', g, h, '\n'] =>
    isDig a && isDig b && isDig c && isDig d &&
      isDig e && isDig f && isDig g && isDig h
  | _ => false

/-- The text-bearing fields checked for minimum length (line 581). -/
def text_fields : List String := ["title", "content", "text", "name"]

/-- `validate_node_data` (lines 553-587) as a boolean: per-label required
fields present and truthy, any `date` field in `YYYY-MM-DD` format, and every
text-bearing field of length ≥ 2 after stripping.  (The Python function also
returns an error message naming the first failing check; the message is not
modelled, only validity.) -/
def validate_node_data (n : VNode) : Bool :=
  (n.labels.all fun l =>
    match findKey required_fields l with
    | some fs => fs.all fun f => truthyS (getField n f)
    | none => true) &&
  (match n.date with
   | some d => pyDateFmt d.data
   | none => true) &&
  (text_fields.all fun f =>
    match getField n f with
    | some s => decide (2 ≤ (stripWS s.data).length)
    | none => true)

/-- Extract-phase validation split of `batch_process_files` (lines 966-976):
nodes passing validation join the commit batch. -/
def batch_valid_nodes (nodes : List VNode) : List VNode :=
  nodes.filter fun n => validate_node_data n

/-- Extract-phase validation split of `batch_process_files` (lines 966-976):
nodes failing validation are dropped and recorded in the failed-nodes log. -/
def batch_failed_nodes (nodes : List VNode) : List VNode :=
  nodes.filter fun n => !(validate_node_data n)


/-! ### Node-commit phase of `batch_process_files` (lines 985-1002)

The loader selects a merge key per node in the priority order `title`,
`name`, `value` (line 997) and calls `tx.merge(node, label, key)` with the
node's primary label.  The merge operation itself belongs to the external
py2neo/Neo4j store and is modelled from the specification's store contract. -/

/-- The merge key chosen by the loader (line 997): `("title", value)` if a
title is present, else `name`, else `value`, else no key at all (line 998:
such a node is skipped). -/
def mergeKey (n : VNode) : Option (String × String) :=
  match n.title with
  | some t => some ("title", t)
  | none =>
    match n.name with
    | some nm => some ("name", nm)
    | none =>
      match n.value with
      | some v => some ("value", v)
      | none => none

/-- A node persisted in the graph store, identified by its primary label and
merge key; `props` is the property bag it was last merged with. -/
structure StoredNode where
  label : String
  keyName : String
  keyVal : String
  props : VNode
deriving DecidableEq

/-- Modelled from the spec: the graph store's merge-node-by-key operation is
missing from the repository (py2neo/Neo4j is an external collaborator); §6
requires "merge-node-by-key" and the glossary defines node merge as "an
idempotent upsert keyed on a uniqueness constraint (label + key field);
repeated merges of identical-key nodes collapse to one".  If a node with the
same (label, key field, key value) is present it is updated in place,
otherwise a new node is appended. -/
def mergeStore (st : List StoredNode) (label keyName keyVal : String)
    (props : VNode) : List StoredNode :=
  if st.any fun e =>
      decide (e.label = label ∧ e.keyName = keyName ∧ e.keyVal = keyVal) then
    st.map fun e =>
      if e.label = label ∧ e.keyName = keyName ∧ e.keyVal = keyVal then
        { e with props := props }
      else e
  else st ++ [⟨label, keyName, keyVal, props⟩]

/-- One `tx.merge` call of the node-commit loop (lines 994-1002): merge by
primary label and kind-determined key, skipping keyless nodes. -/
def commitNode (st : List StoredNode) (n : VNode) : List StoredNode :=
  match mergeKey n with
  | some (kn, kv) => mergeStore st (n.labels.headD "") kn kv n
  | none => st

/-- The node-commit phase over one batch of valid nodes (lines 993-1018). -/
def node_commit (st : List StoredNode) (batch_nodes : List VNode) :
    List StoredNode :=
  batch_nodes.foldl commitNode st

/-- No two persisted nodes share the same (label, key field, key value). -/
def UniqueKeys (st : List StoredNode) : Prop :=
  st.Pairwise fun a b =>
    ¬(a.label = b.label ∧ a.keyName = b.keyName ∧ a.keyVal = b.keyVal)


/-! ### Relationship synthesis: co-occurrence confidence
(`extract_relationships_from_content`, lines 458-505) and the pairwise
strength pass (`extract_entities_and_relationships`, lines 910-935) -/

/-- Python `content.split('\n\n')`: split at each non-overlapping occurrence
of a blank line.  `acc` is the reversed current piece. -/
def splitParasAux (acc : List Char) : List Char → List (List Char)
  | [] => [acc.reverse]
  | '\n' :: '\n' :: rest => acc.reverse :: splitParasAux [] rest
  | c :: rest => splitParasAux (c :: acc) rest

/-- Python `content.split('\n\n')`. -/
def splitParas (cs : List Char) : List (List Char) := splitParasAux [] cs

/-- Number of paragraphs in which both (lowered) entity names occur as
substrings, as in
`sum(1 for p in paragraphs if a.lower() in p.lower() and b.lower() in p.lower())`. -/
def coParaCount (content ea eb : List Char) : Nat :=
  ((splitParas content).filter fun p =>
    subL (toLowerL ea) (toLowerL p) && subL (toLowerL eb) (toLowerL p)).length

/-- Character at an index. -/
def charAt (s : List Char) (i : Nat) : Option Char := (s.drop i).head?

/-- The character at index `i` exists and is a word character. -/
def isWordAt (s : List Char) (i : Nat) : Bool :=
  match charAt s i with
  | some c => isWordChar c
  | none => false

/-- Regex `\b` between positions `i - 1` and `i`: exactly one neighbouring
character is a word character (string edges count as non-word). -/
def boundaryAt (s : List Char) (i : Nat) : Bool :=
  (if i = 0 then false else isWordAt s (i - 1)) != isWordAt s i

/-- The literal `pat` occurs at index `i` of `s`. -/
def litAt (pat s : List Char) (i : Nat) : Bool := startsL pat (s.drop i)

/-- `re.escape`d literal with `\b` on both sides matches at index `i`. -/
def matchBAt (pat s : List Char) (i : Nat) : Bool :=
  litAt pat s i && boundaryAt s i && boundaryAt s (i + pat.length)

/-- Scanning loop of `re.finditer(r'\b' + re.escape(pat) + r'\b', s)`:
start indices of non-overlapping matches, scanning left to right and resuming
after each match.  The fuel argument bounds the scan; it is called with
`s.length + 1`, enough since every step advances the index. -/
def findPosAux (pat s : List Char) : Nat → Nat → List Nat
  | 0, _ => []
  | fuel + 1, i =>
    if s.length < i then []
    else if matchBAt pat s i then i :: findPosAux pat s fuel (i + max 1 pat.length)
    else findPosAux pat s fuel (i + 1)

/-- Start indices of the word-bounded occurrences of `pat` in `s`. -/
def findPositions (pat s : List Char) : List Nat :=
  findPosAux pat s (s.length + 1) 0

/-- The closest-pair loop of `extract_relationship_context` (lines 274-283):
among all position pairs pick the pair minimizing absolute distance (strict
improvement, so the first such pair is kept), returned as (min, max). -/
def closestPair (as bs : List Nat) : Option (Nat × Nat) :=
  (as.foldl
    (fun best a =>
      bs.foldl
        (fun best b =>
          let dist := max a b - min a b
          match best with
          | none => some (dist, (min a b, max a b))
          | some (d, p) =>
            if dist < d then some (dist, (min a b, max a b)) else some (d, p))
        best)
    none).map Prod.snd

/-- `re.sub(r'\s+', ' ', s)`: collapse every whitespace run to one space.
`prevSpace` records whether the previous character was part of a run. -/
def squeezeWSAux (prevSpace : Bool) : List Char → List Char
  | [] => []
  | c :: rest =>
    if isSpaceChar c then
      if prevSpace then squeezeWSAux true rest
      else ' ' :: squeezeWSAux true rest
    else c :: squeezeWSAux false rest

/-- `re.sub(r'\s+', ' ', s)`. -/
def squeezeWS (cs : List Char) : List Char := squeezeWSAux false cs

/-- `extract_relationship_context` (lines 260-297): find all word-bounded
occurrences of both lowered entity names in the lowered content, pick the
closest pair, cut the window 100 characters around it (clamped to the
document) out of the original content, collapse whitespace and strip. -/
def extract_relationship_context (ea eb content : List Char) : List Char :=
  let cl := toLowerL content
  let aPos := findPositions (toLowerL ea) cl
  let bPos := findPositions (toLowerL eb) cl
  if aPos.isEmpty || bPos.isEmpty then []
  else
    match closestPair aPos bPos with
    | none => []
    | some (lo, hi) =>
      let s := lo - 100
      let e := min content.length (hi + 100)
      stripWS (squeezeWS ((content.drop s).take (e - s)))

/-- A node of the per-document working map (`node_map`), restricted to the
data these loops read: its label and optional `name` property. -/
structure PNode where
  label : String
  name : Option String := none
deriving DecidableEq

/-- `node.get("name", "") or key`: the node's name if present and nonempty,
else the map key. -/
def entityName (key : String) (n : PNode) : String :=
  match n.name with
  | some s => if s = "" then key else s
  | none => key

/-- A produced relationship, with the evidence properties set by the
co-occurrence and strength passes (`none` models an absent property). -/
structure ERel where
  relType : String
  srcKey : String
  dstKey : String
  confidence : Option ℚ := none
  strength : Option ℚ := none
  co_occurrence_count : Option Nat := none
  context : Option (List Char) := none
  source : Option String := none
deriving DecidableEq

/-- Python `min(a, b)`: `a` when `a ≤ b`, else `b`. -/
def pyMin (a b : ℚ) : ℚ := if a ≤ b then a else b

/-- A natural number as a rational (in kernel-reducible form). -/
def natQ (n : ℕ) : ℚ := mkRat (Int.ofNat n) 1

/-- Python `round(x)`: nearest integer, ties to even. -/
def roundHalfEven (x : ℚ) : ℤ :=
  if x - (⌊x⌋ : ℚ) < mkRat 1 2 then ⌊x⌋
  else if mkRat 1 2 < x - (⌊x⌋ : ℚ) then ⌊x⌋ + 1
  else if ⌊x⌋ % 2 = 0 then ⌊x⌋ else ⌊x⌋ + 1

/-- Python `round(q, 2)`. -/
def pyRound2 (q : ℚ) : ℚ := mkRat (roundHalfEven (q * 100)) 100

/-- The co-occurrence loop of `extract_relationships_from_content`
(lines 458-503): for every ordered pair of distinct map keys whose entity
names have length ≥ 3 and are both (lowered) substrings of the content, with
a nonempty shared context and at least one shared paragraph, emit a
`RELATES_TO` relationship carrying the 200-character context excerpt, the
shared-paragraph count and `confidence = min(0.9, 0.3 + 0.1 * count)`.
(The semantic-subtype property, which depends only on a keyword table over
the context, is not modelled.) -/
def cooccur_rels (content : String) (node_map : List (String × PNode)) :
    List ERel :=
  (node_map.map fun an =>
    node_map.filterMap fun bn =>
      if an.1 ≠ bn.1 then
        if 3 ≤ (entityName an.1 an.2).length ∧
            3 ≤ (entityName bn.1 bn.2).length then
          if subL (toLowerL (entityName an.1 an.2).data)
                (toLowerL content.data) ∧
              subL (toLowerL (entityName bn.1 bn.2).data)
                (toLowerL content.data) then
            if extract_relationship_context (entityName an.1 an.2).data
                (entityName bn.1 bn.2).data content.data ≠ [] then
              if 0 < coParaCount content.data (entityName an.1 an.2).data
                  (entityName bn.1 bn.2).data then
                some
                  { relType := "RELATES_TO"
                    srcKey := an.1
                    dstKey := bn.1
                    confidence := some (pyMin (mkRat 9 10)
                      (mkRat 3 10 + natQ (coParaCount content.data
                        (entityName an.1 an.2).data
                        (entityName bn.1 bn.2).data) * mkRat 1 10))
                    co_occurrence_count := some (coParaCount content.data
                      (entityName an.1 an.2).data (entityName bn.1 bn.2).data)
                    context := some ((extract_relationship_context
                      (entityName an.1 an.2).data (entityName bn.1 bn.2).data
                      content.data).take 200) }
              else none
            else none
          else none
        else none
      else none).flatten

/-- Unordered index pairs `(entity_keys[i], entity_keys[j])`, `i < j`, as
enumerated by `for i, key1 in enumerate(...): for key2 in entity_keys[i+1:]`. -/
def pairsAfter : List String → List (String × String)
  | [] => []
  | x :: rest => (rest.map fun y => (x, y)) ++ pairsAfter rest

/-- The pairwise strength pass (lines 910-935): over pairs of map keys other
than `Document`, `DocumentDate`, `Topic:`- and `Decision:`-prefixed ones,
whose names are (lowered) substrings of the content and longer than 3
characters, compute `strength = min(1.0, 0.2 * shared_paragraph_count)` and
create a `RELATES_TO` relationship (tagged with the document title) only when
`strength > 0.2`. -/
def strength_rels (title content : String)
    (node_map : List (String × PNode)) : List ERel :=
  (pairsAfter ((node_map.map Prod.fst).filter fun k =>
      decide (k ≠ "Document" ∧ k ≠ "DocumentDate" ∧
        ¬(startsL "Topic:".data k.data = true) ∧
        ¬(startsL "Decision:".data k.data = true)))).filterMap fun kk =>
    if kk.1 ≠ kk.2 then
      match findKey node_map kk.1, findKey node_map kk.2 with
      | some n1, some n2 =>
        if subL (toLowerL (entityName kk.1 n1).data) (toLowerL content.data) ∧
            subL (toLowerL (entityName kk.2 n2).data)
              (toLowerL content.data) ∧
            3 < (entityName kk.1 n1).length ∧
            3 < (entityName kk.2 n2).length then
          if mkRat 1 5 < pyMin 1 (natQ (coParaCount content.data
              (entityName kk.1 n1).data
              (entityName kk.2 n2).data) * mkRat 1 5) then
            some
              { relType := "RELATES_TO"
                srcKey := kk.1
                dstKey := kk.2
                strength := some (pyRound2 (pyMin 1
                  (natQ (coParaCount content.data (entityName kk.1 n1).data
                    (entityName kk.2 n2).data) * mkRat 1 5)))
                source := some title }
          else none
        else none
      | _, _ => none
    else none


/-! ### Section extraction regexes (`extract_meeting_topics` lines 141-163,
`extract_decisions_actions` lines 166-201), participant extraction
(lines 620-641), meeting detection (lines 603-617), document classification
(lines 299-325) and the meeting sub-structure assembly (lines 790-868) -/

/-- First alternative of a case-insensitive keyword alternation matching at
the head of `s`; returns the remainder after the keyword. -/
def matchKwAt (kws : List (List Char)) (s : List Char) : Option (List Char) :=
  match kws with
  | [] => none
  | kw :: rest =>
    if startsL kw (toLowerL s) then some (s.drop kw.length)
    else matchKwAt rest s

/-- Lazy capture of `(.*?)(?:\n\n|\Z)` (DOTALL): everything up to the first
blank line, or to the end; returns (capture, remainder after the blank
line). -/
def captureTillNN : List Char → List Char × List Char
  | [] => ([], [])
  | '\n' :: '\n' :: rest => ([], rest)
  | c :: rest =>
    let p := captureTillNN rest
    (c :: p.1, p.2)

/-- `re.findall(r'(?:KW1|KW2|...):?\s*(.*?)(?:\n\n|\Z)', s, DOTALL|IGNORECASE)`:
scan left to right; at a keyword, consume an optional colon and the greedy
whitespace run, capture lazily up to a blank line or the end, and resume
after the consumed terminator.  The fuel is `s.length + 1`, enough since
every step consumes at least one character (all keywords are nonempty). -/
def findSectionsAux (kws : List (List Char)) : Nat → List Char → List (List Char)
  | 0, _ => []
  | _ + 1, [] => []
  | fuel + 1, c :: rest =>
    match matchKwAt kws (c :: rest) with
    | some afterKw =>
      let afterColon := match afterKw with
        | ':' :: r => r
        | r => r
      let cap := captureTillNN (afterColon.dropWhile isSpaceChar)
      cap.1 :: findSectionsAux kws fuel cap.2
    | none => findSectionsAux kws fuel rest

/-- Keyword-section extraction over a whole string. -/
def findSections (kws : List (List Char)) (s : List Char) : List (List Char) :=
  findSectionsAux kws (s.length + 1) s

/-- The characters of the item splitter `re.split(r'[\n•\-\d+\.]', s)`:
newline, bullet, dash, ANY DIGIT, plus, period. -/
def isItemSep (c : Char) : Bool :=
  c = '\n' || c = '•' || c = '-' || isDig c || c = '+' || c = '.'

/-- `re.split` on single characters satisfying `p`, keeping empty pieces. -/
def splitOnSepAux (p : Char → Bool) (acc : List Char) :
    List Char → List (List Char)
  | [] => [acc.reverse]
  | c :: rest =>
    if p c then acc.reverse :: splitOnSepAux p [] rest
    else splitOnSepAux p (c :: acc) rest

/-- `re.split` on single characters satisfying `p`. -/
def splitOnSep (p : Char → Bool) (cs : List Char) : List (List Char) :=
  splitOnSepAux p [] cs

/-- ASCII letter (regex `[A-Za-z]`). -/
def isAsciiLetter (c : Char) : Bool := c.isUpper || c.isLower

/-- Class `[A-Za-z\s]` of the `@`-assignee and parenthesis-assignee
patterns. -/
def isNameCh (c : Char) : Bool := isAsciiLetter c || c.isWhitespace

/-- `@([A-Za-z\s]+)` at the head of the list. -/
def asgAt1 : List Char → Option (List Char)
  | '@' :: rest =>
    let run := rest.takeWhile isNameCh
    if run ≠ [] then some run else none
  | _ => none

/-- `\(([A-Za-z\s]+)\)` at the head of the list. -/
def asgAt2 : List Char → Option (List Char)
  | '(' :: rest =>
    let run := rest.takeWhile isNameCh
    if run ≠ [] then
      match rest.dropWhile isNameCh with
      | ')' :: _ => some run
      | _ => none
    else none
  | _ => none

/-- `LITERAL(\w+)` (case-insensitive literal, then a word run) at the head. -/
def asgLit (lit : List Char) (s : List Char) : Option (List Char) :=
  if startsL lit (toLowerL s) then
    let run := (s.drop lit.length).takeWhile isWordChar
    if run ≠ [] then some run else none
  else none

/-- `responsible:\s*(\w+)` and `owner:\s*(\w+)` at the head: a literal, a
greedy whitespace run, then a word run. -/
def asgLitWs (lit : List Char) (s : List Char) : Option (List Char) :=
  if startsL lit (toLowerL s) then
    let afterWs := (s.drop lit.length).dropWhile isSpaceChar
    let run := afterWs.takeWhile isWordChar
    if run ≠ [] then some run else none
  else none

/-- Assignee extraction for one action item (lines 183-197): the patterns
`@Name`, `(Name)`, `assigned to X`, `responsible: X`, `owner: X` searched in
priority order (first match wins), the captured group stripped. -/
def extract_assignee (item : List Char) : Option (List Char) :=
  match scanOpt asgAt1 item with
  | some g => some (stripWS g)
  | none =>
    match scanOpt asgAt2 item with
    | some g => some (stripWS g)
    | none =>
      match scanOpt (asgLit "assigned to ".data) item with
      | some g => some (stripWS g)
      | none =>
        match scanOpt (asgLitWs "responsible:".data) item with
        | some g => some (stripWS g)
        | none =>
          match scanOpt (asgLitWs "owner:".data) item with
          | some g => some (stripWS g)
          | none => none

/-- The decision-section keywords (line 171), in alternation order. -/
def decisionKws : List (List Char) :=
  ["decisions".data, "decision".data, "decided".data, "conclusion".data,
   "agreed".data]

/-- The action-section keywords (line 177), in alternation order. -/
def actionKws : List (List Char) :=
  ["actions".data, "action items".data, "next steps".data, "todo".data,
   "tasks".data]

/-- `extract_decisions_actions` (lines 166-201): keyword-headed sections up
to a blank line, split into items on `[\n•\-\d+\.]`, keeping stripped items
longer than 10 characters; each action item is paired with its extracted
assignee. -/
def extract_decisions_actions (content : String) :
    List (List Char) × List (List Char × Option (List Char)) :=
  let decisions := ((findSections decisionKws content.data).map fun sec =>
    ((splitOnSep isItemSep sec).map stripWS).filter fun d =>
      decide (10 < d.length)).flatten
  let actions := ((findSections actionKws content.data).map fun sec =>
    ((splitOnSep isItemSep sec).map stripWS).filter fun a =>
      decide (10 < a.length)).flatten
  (decisions, actions.map fun item => (item, extract_assignee item))

/-- The topic-section keywords (line 145), in alternation order. -/
def topicKws : List (List Char) :=
  ["agenda".data, "topics".data, "discussion".data, "discussed".data,
   "points".data, "items".data]

/-- `(?:[A-Z][a-z]+)+` at the head of the list, greedy: one or more
capital-plus-lowercase-run groups, concatenated.  Fuel is the list length
plus one; every iteration consumes at least two characters. -/
def capWordsPlusAux : Nat → List Char → Option (List Char × List Char)
  | 0, _ => none
  | fuel + 1, c :: rest =>
    if c.isUpper then
      let run := rest.takeWhile Char.isLower
      if run ≠ [] then
        let rest2 := rest.dropWhile Char.isLower
        match capWordsPlusAux fuel rest2 with
        | some (m, r) => some (c :: run ++ m, r)
        | none => some (c :: run, rest2)
      else none
    else none
  | _ + 1, [] => none

/-- The capitalized-phrase regex
`([A-Z][a-z]{2,}(?:\s+[a-z]{1,3}\s+)?(?:[A-Z][a-z]+)+)` (line 152) matching
at the head of the list: a capital with at least two lowercase letters, an
optional short lowercase connective word with whitespace on both sides, then
concatenated capitalized words.  Greedy runs are maximal; regex backtracking
can never rescue a shorter run here because every run is followed by a
character of the same class. -/
def matchCapPhraseAt (s : List Char) : Option (List Char × List Char) :=
  match s with
  | c :: rest =>
    if c.isUpper then
      let run := rest.takeWhile Char.isLower
      let rest2 := rest.dropWhile Char.isLower
      if 2 ≤ run.length then
        let tryMid :=
          let ws1 := rest2.takeWhile isSpaceChar
          let afterWs1 := rest2.dropWhile isSpaceChar
          if ws1 ≠ [] then
            let mid := afterWs1.takeWhile Char.isLower
            if 1 ≤ mid.length ∧ mid.length ≤ 3 then
              let afterMid := afterWs1.dropWhile Char.isLower
              let ws2 := afterMid.takeWhile isSpaceChar
              let afterWs2 := afterMid.dropWhile isSpaceChar
              if ws2 ≠ [] then
                match capWordsPlusAux (afterWs2.length + 1) afterWs2 with
                | some (m, r) => some (c :: run ++ ws1 ++ mid ++ ws2 ++ m, r)
                | none => none
              else none
            else none
          else none
        match tryMid with
        | some res => some res
        | none =>
          match capWordsPlusAux (rest2.length + 1) rest2 with
          | some (m, r) => some (c :: run ++ m, r)
          | none => none
      else none
    else none
  | [] => none

/-- `re.findall` driver for the capitalized-phrase regex, resuming after each
match. -/
def findCapPhrasesAux : Nat → List Char → List (List Char)
  | 0, _ => []
  | _ + 1, [] => []
  | fuel + 1, c :: rest =>
    match matchCapPhraseAt (c :: rest) with
    | some (m, r) => m :: findCapPhrasesAux fuel r
    | none => findCapPhrasesAux fuel rest

/-- All capitalized-phrase matches in a string. -/
def findCapPhrases (s : List Char) : List (List Char) :=
  findCapPhrasesAux (s.length + 1) s

/-- The pronoun/demonstrative prefixes excluded from noun chunks
(line 160). -/
def pronounPrefixes : List (List Char) :=
  ["i ".data, "we ".data, "you ".data, "they ".data, "he ".data, "she ".data,
   "it ".data, "this ".data, "that ".data]

/-- Lowered `s` starts with one of the given (lowercase) prefixes. -/
def startsWithAny (ps : List (List Char)) (s : List Char) : Bool :=
  ps.any fun p => startsL p (toLowerL s)

/-- First-occurrence-order deduplication.  Python's `list(set(...))` has
unspecified order (only membership is relied upon downstream); the model
fixes first-occurrence order. -/
def dedupPreserve (l : List (List Char)) : List (List Char) :=
  l.foldl (fun acc t => if acc.contains t then acc else acc ++ [t]) []

/-- `extract_meeting_topics` (lines 141-163): keyword-headed agenda sections
split into fragments longer than 5 characters; capitalized phrases longer
than 10 characters not already present case-insensitively; when fewer than 3
topics were found, up to 5 noun chunks produced by the external spaCy model
(passed in as `nlpChunks`) that are longer than 10 characters and do not
start with a pronoun; finally deduplicated and capped at 8. -/
def extract_meeting_topics (content : String) (nlpChunks : List String) :
    List (List Char) :=
  let t1 := ((findSections topicKws content.data).map fun item =>
    ((splitOnSep isItemSep item).map stripWS).filter fun t =>
      decide (5 < t.length)).flatten
  let t2 := (findCapPhrases content.data).foldl
    (fun acc ph =>
      if 10 < ph.length ∧ ¬((acc.map toLowerL).contains (toLowerL ph)) then
        acc ++ [ph]
      else acc)
    t1
  let t3 :=
    if t2.length < 3 then
      t2 ++ (((nlpChunks.map String.data).filter fun ch =>
        decide (10 < ch.length) && !(startsWithAny pronounPrefixes ch)).take 5)
    else t2
  (dedupPreserve t3).take 8

/-- The meeting keywords of `is_meeting_note` (lines 604-606). -/
def meeting_keywords : List (List Char) :=
  ["meeting".data, "minutes".data, "kick-off".data, "workshop".data,
   "sync".data, "session".data, "standup".data, "review".data,
   "retrospective".data, "notes".data, "call".data, "discussion".data]

/-- The section words of the meeting-detection heuristic (line 615). -/
def sectionWords : List (List Char) :=
  ["participants".data, "attendees".data, "agenda".data, "decisions".data,
   "action items".data, "next steps".data]

/-- `is_meeting_note` (lines 603-617): a meeting keyword in the lowered
title, or in the first 500 characters of the lowered content, or any of the
section words anywhere in the lowered content. -/
def is_meeting_note (title content : String) : Bool :=
  meeting_keywords.any (fun kw => subL kw (toLowerL title.data)) ||
  meeting_keywords.any (fun kw => subL kw ((toLowerL content.data).take 500)) ||
  sectionWords.any (fun kw => subL kw (toLowerL content.data))

/-- The document-type keyword taxonomy of `classify_document_type`
(lines 301-311), in declaration order. -/
def doc_types : List (String × List (List Char)) :=
  [("Meeting", ["meeting".data, "notes".data, "minutes".data,
      "discussion".data, "sync".data, "workshop".data, "kick-off".data,
      "session".data, "brainstorming".data]),
   ("Design", ["design".data, "architecture".data, "blueprint".data,
      "structure".data, "framework".data, "pattern".data]),
   ("Planning", ["roadmap".data, "plan".data, "strategy".data,
      "timeline".data, "milestone".data, "schedule".data,
      "project plan".data]),
   ("Review", ["review".data, "retrospective".data, "postmortem".data,
      "analysis".data, "assessment".data, "evaluation".data]),
   ("Requirements", ["requirements".data, "specifications".data,
      "user stories".data, "backlog".data, "feature".data, "epic".data]),
   ("Technical", ["technical".data, "implementation".data, "code".data,
      "solution".data, "development".data, "algorithm".data]),
   ("Process", ["process".data, "workflow".data, "procedure".data,
      "guide".data, "standard".data, "protocol".data]),
   ("Brainstorming", ["brainstorming".data, "ideation".data, "ideas".data,
      "creative".data, "concept".data]),
   ("Documentation", ["documentation".data, "manual".data, "guide".data,
      "handbook".data, "reference".data])]

/-- `classify_document_type` (lines 299-325): keyword in lowered title
scores 3, keyword in the lowered first 3000 characters of content scores 1;
the first type with the strictly greatest score wins; all-zero scores fall
back to ("Document", 0). -/
def classify_document_type (title content : String) : String × Nat :=
  let title_l := toLowerL title.data
  let sample := toLowerL (content.data.take 3000)
  let best := (doc_types.map fun tk =>
    (tk.1, 3 * (tk.2.filter fun kw => subL kw title_l).length +
      (tk.2.filter fun kw => subL kw sample).length)).foldl
    (fun b s => if s.2 > b.2 then s else b) ("", 0)
  if best.2 > 0 then best else ("Document", 0)

/-- The terminator `(?:\n\n|\n[A-Z][a-z]+:|\nAgenda|\nDiscussion|\n$)` of the
participant patterns (lines 624-625), matched at the head of the list under
IGNORECASE (which makes `[A-Z]` and `[a-z]` both match any ASCII letter);
returns the remainder after the consumed terminator.  `\n$` consumes the
newline when it ends the string (a `\n\n` at the very end is already caught
by the first alternative). -/
def termMatch (s : List Char) : Option (List Char) :=
  match s with
  | '\n' :: rest =>
    match rest with
    | '\n' :: r2 => some r2
    | _ =>
      let w := rest.takeWhile isAsciiLetter
      if 2 ≤ w.length ∧ (rest.drop w.length).head? = some ':' then
        some (rest.drop (w.length + 1))
      else if startsL "agenda".data (toLowerL rest) then
        some (rest.drop 6)
      else if startsL "discussion".data (toLowerL rest) then
        some (rest.drop 10)
      else if rest = [] then some []
      else none
  | _ => none

/-- Lazy `(.*?)` up to the first position where the terminator matches;
`none` when no terminator occurs up to the end of the string. -/
def captureTillTermAux (acc : List Char) : List Char → Option (List Char × List Char)
  | [] => none
  | c :: rest =>
    match termMatch (c :: rest) with
    | some rem => some (acc.reverse, rem)
    | none => captureTillTermAux (c :: acc) rest

/-- Backtracking of a greedy `\s*` into its own whitespace run: the latest
position strictly inside the run where the terminator matches (the capture is
then empty).  `j` counts down from the run length. -/
def backWs (s : List Char) : Nat → Option (List Char)
  | 0 => none
  | j + 1 =>
    match termMatch (s.drop j) with
    | some rem => some rem
    | none => backWs s j

/-- `\s*(.*?)TERM` from `s`: the greedy whitespace run, then the lazy capture
up to the earliest terminator; if no terminator follows the run, the
terminator is sought inside the whitespace run itself (latest position
first), with an empty capture. -/
def resolveCapture (s : List Char) : Option (List Char × List Char) :=
  let wsLen := (s.takeWhile isSpaceChar).length
  match captureTillTermAux [] (s.drop wsLen) with
  | some res => some res
  | none => (backWs s wsLen).map fun rem => ([], rem)

/-- `\s*[:\-]?\s*(.*?)TERM` after a participant keyword: the greedy
whitespace run, an optional colon or dash, and the capture; when the
colon-side search fails entirely the engine backtracks into the first
whitespace run. -/
def matchPartTail (s : List Char) : Option (List Char × List Char) :=
  let ws1 := s.takeWhile isSpaceChar
  match s.drop ws1.length with
  | ':' :: r =>
    match resolveCapture r with
    | some res => some res
    | none => (backWs s ws1.length).map fun rem => ([], rem)
  | '-' :: r =>
    match resolveCapture r with
    | some res => some res
    | none => (backWs s ws1.length).map fun rem => ([], rem)
  | _ => resolveCapture s

/-- `re.findall` driver for the participant patterns: scan for a keyword;
on a full match resume after the terminator, otherwise advance one
position. -/
def findPartsAux (kws : List (List Char)) : Nat → List Char → List (List Char)
  | 0, _ => []
  | _ + 1, [] => []
  | fuel + 1, c :: rest =>
    match matchKwAt kws (c :: rest) with
    | some afterKw =>
      match matchPartTail afterKw with
      | some (cap, rem) => cap :: findPartsAux kws fuel rem
      | none => findPartsAux kws fuel rest
    | none => findPartsAux kws fuel rest

/-- Captures of one participant pattern over a whole string. -/
def findParts (kws : List (List Char)) (s : List Char) : List (List Char) :=
  findPartsAux kws (s.length + 1) s

/-- Keywords of the first participant pattern (line 624). -/
def pKeys1 : List (List Char) := ["participants".data, "attendees".data, "present".data]

/-- Keywords of the second participant pattern (line 625). -/
def pKeys2 : List (List Char) := ["by".data, "with".data]

/-- The name-list splitter `re.split(r'[\n,;•\-]', match)` (line 631). -/
def isPartSep (c : Char) : Bool :=
  c = '\n' || c = ',' || c = ';' || c = '•' || c = '-'

/-- The keyword prefixes excluded from participant names (line 633). -/
def partExcl : List (List Char) :=
  ["agenda".data, "discussion".data, "decision".data, "action".data]

/-- The fallback line pattern
`re.match(r'[-•*]?\s*([A-Z][a-z]+\s+[A-Z][a-z]+)', line)` (line 638),
case-sensitive and anchored: an optional bullet, whitespace, then two
capitalized words separated by whitespace; returns the captured group. -/
def matchNamePattern (line : List Char) : Option (List Char) :=
  let afterBullet := match line with
    | c :: rest => if c = '-' ∨ c = '•' ∨ c = '*' then rest else line
    | [] => []
  match afterBullet.dropWhile isSpaceChar with
  | c1 :: r1 =>
    if c1.isUpper then
      let run1 := r1.takeWhile Char.isLower
      if run1 ≠ [] then
        let afterRun1 := r1.dropWhile Char.isLower
        let ws := afterRun1.takeWhile isSpaceChar
        if ws ≠ [] then
          match afterRun1.dropWhile isSpaceChar with
          | c2 :: r2 =>
            if c2.isUpper then
              let run2 := r2.takeWhile Char.isLower
              if run2 ≠ [] then
                some (c1 :: run1 ++ ws ++ c2 :: run2)
              else none
            else none
          | [] => none
        else none
      else none
    else none
  | [] => none

/-- `extract_participants` (lines 620-641): names from the two
keyword-anchored patterns, split on `[\n,;•\-]`, stripped, kept when their
length is strictly between 2 and 50 and they do not start (case-insensitively)
with a section keyword; plus the fallback scan of the first 20 lines for a
bullet-prefixed capitalized name pair.  Python collects them in a `set`; the
model keeps first-occurrence order, and only membership is relied upon. -/
def extract_participants (content : String) : List (List Char) :=
  let fromPatterns := ((findParts pKeys1 content.data ++
      findParts pKeys2 content.data).map fun cap =>
    ((splitOnSep isPartSep cap).map stripWS).filter fun nm =>
      decide (2 < nm.length ∧ nm.length < 50) &&
        !(startsWithAny partExcl nm)).flatten
  let fromLines := ((splitOnSep (fun c => c = '\n') content.data).take 20).filterMap
    matchNamePattern
  dedupPreserve (fromPatterns ++ fromLines)

/-- Reference to a node of the per-document working map during meeting
assembly.  Pre-existing nodes (the Document's author, NER persons, dates,
custom entities produced by the earlier, externally-NLP-driven phases) are
abstracted as `ext` nodes carrying their labels and optional name. -/
inductive NRef where
  | docRef : NRef
  | person : String → NRef
  | topic : String → NRef
  | decisionN : Nat → String → NRef
  | actionN : Nat → String → NRef
  | ext : Nat → List String → Option String → NRef
deriving DecidableEq

/-- The labels of a referenced node. -/
def refLabels : NRef → List String
  | NRef.docRef => ["Document"]
  | NRef.person _ => ["Person"]
  | NRef.topic _ => ["Topic"]
  | NRef.decisionN _ _ => ["Decision"]
  | NRef.actionN _ _ => ["ActionItem"]
  | NRef.ext _ ls _ => ls

/-- The `name` property of a referenced node. -/
def refName : NRef → Option String
  | NRef.person n => some n
  | NRef.ext _ _ nm => nm
  | _ => none

/-- A relationship produced by the meeting assembly, with its optional
timestamp properties. -/
structure MRel where
  src : NRef
  typ : String
  dst : NRef
  props : List (String × String) := []
deriving DecidableEq

/-- The `on_date` property set on second-loop attendance edges when the
document date is known (lines 854-856). -/
def dProps (docDate : Option String) : List (String × String) :=
  match docDate with
  | some d => [("on_date", d)]
  | none => []

/-- The `when` property set on DECIDED edges when the document date is known
(lines 821-822). -/
def whenProps (docDate : Option String) : List (String × String) :=
  match docDate with
  | some d => [("when", d)]
  | none => []

/-- First participants loop (lines 799-805): ensure a Person node exists in
the working map for each participant and append an (untimestamped)
ATTENDED_BY edge to it. -/
def attendLoop1 : List String → List (String × NRef) → List MRel →
    List (String × NRef) × List MRel
  | [], nm, rs => (nm, rs)
  | p :: rest, nm, rs =>
    let nm2 := if (findKey nm p).isSome then nm else nm ++ [(p, NRef.person p)]
    match findKey nm2 p with
    | some r => attendLoop1 rest nm2 (rs ++ [⟨NRef.docRef, "ATTENDED_BY", r, []⟩])
    | none => attendLoop1 rest nm2 rs

/-- Topics loop (lines 806-813): a Topic node and a DISCUSSES edge for every
topic longer than 5 characters. -/
def topicsLoop : List (List Char) → List (String × NRef) → List MRel →
    List (String × NRef) × List MRel
  | [], nm, rs => (nm, rs)
  | t :: rest, nm, rs =>
    if 5 < t.length then
      topicsLoop rest
        (nm ++ [("Topic:" ++ String.mk t, NRef.topic (String.mk t))])
        (rs ++ [⟨NRef.docRef, "DISCUSSES", NRef.topic (String.mk t), []⟩])
    else topicsLoop rest nm rs

/-- Decisions loop (lines 815-824): a Decision node and a DECIDED edge
(carrying `when` when the date is known) for every decision longer than 10
characters, indexed by its enumeration position. -/
def decisionsLoop (docDate : Option String) :
    List (Nat × List Char) → List (String × NRef) → List MRel →
    List (String × NRef) × List MRel
  | [], nm, rs => (nm, rs)
  | (i, d) :: rest, nm, rs =>
    if d ≠ [] ∧ 10 < d.length then
      decisionsLoop docDate rest
        (nm ++ [("Decision:" ++ toString i, NRef.decisionN i (String.mk d))])
        (rs ++ [⟨NRef.docRef, "DECIDED", NRef.decisionN i (String.mk d),
          whenProps docDate⟩])
    else decisionsLoop docDate rest nm rs

/-- The assignee lookup of the actions loop (lines 838-843): the first node
of the working map labelled Person whose nonempty name contains the assignee
case-insensitively. -/
def findAssignee (nm : List (String × NRef)) (asg : String) : Option NRef :=
  (nm.find? fun kr =>
    (refLabels kr.2).contains "Person" &&
      (match refName kr.2 with
       | some n => !(n == "") && subL (toLowerL asg.data) (toLowerL n.data)
       | none => false)).map Prod.snd

/-- Actions loop (lines 826-850): an ActionItem node and a CREATED_ACTION
edge for every action longer than 10 characters; when an assignee was
extracted, an ASSIGNED_TO edge to the matching Person of the working map, or
to a freshly created Person node when no match is found. -/
def actionsLoop (docDate : Option String) :
    List (Nat × (List Char × Option (List Char))) → List (String × NRef) →
    List MRel → List (String × NRef) × List MRel
  | [], nm, rs => (nm, rs)
  | (i, ia) :: rest, nm, rs =>
    if ia.1 ≠ [] ∧ 10 < ia.1.length then
      let an := NRef.actionN i (String.mk ia.1)
      let nm1 := nm ++ [("ActionItem:" ++ toString i, an)]
      let rs1 := rs ++ [⟨NRef.docRef, "CREATED_ACTION", an, []⟩]
      match ia.2 with
      | some asg =>
        match findAssignee nm1 (String.mk asg) with
        | some r =>
          actionsLoop docDate rest nm1 (rs1 ++ [⟨an, "ASSIGNED_TO", r, []⟩])
        | none =>
          actionsLoop docDate rest
            (nm1 ++ [("Person:" ++ String.mk asg,
              NRef.person (String.mk asg))])
            (rs1 ++ [⟨an, "ASSIGNED_TO", NRef.person (String.mk asg), []⟩])
      | none => actionsLoop docDate rest nm1 rs1
    else actionsLoop docDate rest nm rs

/-- Second attendance loop, "Mark attendance (deduped)" (lines 851-857): for
every participant present in the working map, append another ATTENDED_BY
edge, this one carrying `on_date` when the document date is known.  The map
is left unchanged. -/
def attendLoop2 (docDate : Option String) :
    List String → List (String × NRef) → List MRel → List MRel
  | [], _, rs => rs
  | p :: rest, nm, rs =>
    match findKey nm p with
    | some r =>
      attendLoop2 docDate rest nm
        (rs ++ [⟨NRef.docRef, "ATTENDED_BY", r, dProps docDate⟩])
    | none => attendLoop2 docDate rest nm rs

/-- The meeting sub-structure assembly of `extract_entities_and_relationships`
(lines 792-857), given the pre-existing working node map and the noun chunks
of the external NLP model: participants, topics, decisions, action items and
the two attendance passes, returning the produced relationships and the final
working map.  The follow-up cross-linking (lines 858-866) reads the external
graph store and only appends FOLLOWS_UP edges; it is not modelled. -/
def meeting_assembly (content : String) (docDate : Option String)
    (node_map0 : List (String × NRef)) (nlpChunks : List String) :
    List MRel × List (String × NRef) :=
  let pStrs := (extract_participants content).map String.mk
  let s1 := attendLoop1 pStrs node_map0 []
  let s2 := topicsLoop (extract_meeting_topics content nlpChunks) s1.1 s1.2
  let da := extract_decisions_actions content
  let s3 := decisionsLoop docDate da.1.enum s2.1 s2.2
  let s4 := actionsLoop docDate da.2.enum s3.1 s3.2
  (attendLoop2 docDate pStrs s4.1 s4.2, s4.1)

/-- Meeting detection and assembly of `extract_entities_and_relationships`
(lines 790-868): the document is a meeting when `is_meeting_note` holds or
the classifier's type is Meeting; its date is the one extracted from the
title (`enrich_document_node`, lines 241-244).  Returns the relationships of
the meeting assembly (empty for non-meetings; the earlier, externally-driven
phases of the function are abstracted into `node_map0`). -/
def doc_rels (title content : String) (node_map0 : List (String × NRef))
    (nlpChunks : List String) : List MRel :=
  if is_meeting_note title content ||
      ((classify_document_type title content).1 == "Meeting") then
    (meeting_assembly content (extract_date_from_title title) node_map0
      nlpChunks).1
  else []


/-- The meeting-extraction scenario input of the specification (section 8). -/
def scenario_content : String :=
  "Participants: Alice Johnson, Bob Lee\n\nAgenda: Discuss Q3 Budget Review\n\nDecisions: Approved the Q3 budget increase\n\nAction Items: @Alice prepare the final report"


/-! ## Theorems -/

theorem isDig_le {c : Char} (h : isDig c = true) : c.toNat - 48 ≤ 9 := by
  simp only [isDig, decide_eq_true_eq] at h
  omega

theorem matchFullAt_shape : ∀ l r, matchFullAt l = some r → dateShape r := by
  intro l r h
  unfold matchFullAt at h
  split at h
  · split at h
    · rename_i hc
      obtain ⟨h1, h2, h3, h4, h5, h6, h7, h8, h9, h10⟩ := hc
      cases h
      exact ⟨_, _, _, _, _, _, h5, h6, h7, h8, h9, h10, rfl⟩
    · exact absurd h (by simp)
  · exact absurd h (by simp)

theorem matchSepAt_shape : ∀ l r, matchSepAt l = some r → dateShape r := by
  intro l r h
  unfold matchSepAt at h
  split at h
  · split at h
    · rename_i hc
      obtain ⟨h1, h2, h3, h4, h5, h6, h7, h8, h9, h10⟩ := hc
      cases h
      exact ⟨_, _, _, _, _, _, h5, h6, h7, h8, h9, h10, rfl⟩
    · exact absurd h (by simp)
  · exact absurd h (by simp)

theorem matchYMAt_shape : ∀ l r, matchYMAt l = some r → dateShape r := by
  intro l r h
  unfold matchYMAt at h
  split at h
  · split at h
    · rename_i hc
      obtain ⟨h1, h2, h3, h4, h5, h6, h7⟩ := hc
      cases h
      exact ⟨_, _, _, _, '0', '1', h4, h5, h6, h7, by decide, by decide, rfl⟩
    · exact absurd h (by simp)
  · exact absurd h (by simp)

theorem matchYearAt_shape : ∀ pw l r, matchYearAt pw l = some r → dateShape r := by
  intro pw l r h
  unfold matchYearAt at h
  split at h
  · split at h
    · rename_i hc
      obtain ⟨h1, h2, h3, h4, h5, h6⟩ := hc
      cases h
      exact ⟨_, _, '0', '1', '0', '1', h3, h4, by decide, by decide, by decide, by decide, rfl⟩
    · exact absurd h (by simp)
  · exact absurd h (by simp)

theorem scanOpt_shape {m : List Char → Option (List Char)}
    (hm : ∀ l r, m l = some r → dateShape r) :
    ∀ l r, scanOpt m l = some r → dateShape r := by
  intro l
  induction l with
  | nil => intro r h; simp only [scanOpt] at h; exact hm [] r h
  | cons c rest ih =>
    intro r h
    simp only [scanOpt] at h
    cases hm2 : m (c :: rest) with
    | some r2 => rw [hm2] at h; cases h; exact hm _ _ hm2
    | none => rw [hm2] at h; exact ih r h

theorem searchYear_shape : ∀ (l : List Char) (pw : Bool) r,
    searchYear pw l = some r → dateShape r := by
  intro l
  induction l with
  | nil => intro pw r h; simp [searchYear] at h
  | cons c rest ih =>
    intro pw r h
    simp only [searchYear] at h
    cases hm : matchYearAt pw (c :: rest) with
    | some r2 => rw [hm] at h; cases h; exact matchYearAt_shape _ _ _ hm
    | none => rw [hm] at h; exact ih _ r h

theorem dateShape_year {s : List Char} (h : dateShape s) :
    2000 ≤ yearNumL s ∧ yearNumL s ≤ 2099 := by
  obtain ⟨a, b, c, d, e, f, ha, hb, _, _, _, _, hs⟩ := h
  subst hs
  have hA := isDig_le ha
  have hB := isDig_le hb
  have hA2 : 48 ≤ a.toNat := by
    simp only [isDig, decide_eq_true_eq] at ha; omega
  have hB2 : 48 ≤ b.toNat := by
    simp only [isDig, decide_eq_true_eq] at hb; omega
  simp only [yearNumL, digitVal]
  have h2 : ('2' : Char).toNat = 50 := by decide
  have h0 : ('0' : Char).toNat = 48 := by decide
  rw [h2, h0]
  omega

theorem extract_date_shape (t : String) :
    extract_date_from_title t = none ∨
      ∃ s, extract_date_from_title t = some s ∧ dateShape s.data ∧
        2000 ≤ yearNum s ∧ yearNum s ≤ 2099 := by
  unfold extract_date_from_title
  cases h1 : scanOpt matchFullAt t.data with
  | some r =>
    have hs := scanOpt_shape matchFullAt_shape _ _ h1
    exact Or.inr ⟨String.mk r, rfl, hs, (dateShape_year hs).1, (dateShape_year hs).2⟩
  | none =>
    cases h2 : scanOpt matchSepAt t.data with
    | some r =>
      have hs := scanOpt_shape matchSepAt_shape _ _ h2
      exact Or.inr ⟨String.mk r, rfl, hs, (dateShape_year hs).1, (dateShape_year hs).2⟩
    | none =>
      cases h3 : scanOpt matchYMAt t.data with
      | some r =>
        have hs := scanOpt_shape matchYMAt_shape _ _ h3
        exact Or.inr ⟨String.mk r, rfl, hs, (dateShape_year hs).1, (dateShape_year hs).2⟩
      | none =>
        cases h4 : searchYear false t.data with
        | some r =>
          have hs := searchYear_shape _ _ _ h4
          exact Or.inr ⟨String.mk r, rfl, hs, (dateShape_year hs).1, (dateShape_year hs).2⟩
        | none => exact Or.inl rfl

/-- C3: `extract_date_from_title` tries, in order, the full date pattern, the
separator form, year-month with day defaulting to `01`, then bare year with
month and day defaulting to `01`, returning the first match and `none` when no
pattern matches: `"Sync 2024-05-01"` yields `"2024-05-01"`,
`"Planning 2023_04"` yields `"2023-04-01"`, `"Kickoff 2022"` yields
`"2022-01-01"`, a separator-form title `"Planning 2023_04_05"` yields
`"2023-04-05"`, an earlier-priority pattern wins over a bare year appearing
earlier in the title, and a title with no date yields `none`. -/
theorem c3_date_extraction :
    extract_date_from_title "Sync 2024-05-01" = some "2024-05-01" ∧
    extract_date_from_title "Planning 2023_04" = some "2023-04-01" ∧
    extract_date_from_title "Kickoff 2022" = some "2022-01-01" ∧
    extract_date_from_title "Planning 2023_04_05" = some "2023-04-05" ∧
    extract_date_from_title "Notes 2024 then 2023-05-06" = some "2023-05-06" ∧
    extract_date_from_title "Weekly standup notes" = none := by
  refine ⟨?_, ?_, ?_, ?_, ?_, ?_⟩ <;> decide

/-- C10: every result of `extract_date_from_title` is either `none` or a
string of shape `YYYY-MM-DD` whose year lies between 2000 and 2099 (all
patterns anchor the year as `20` followed by two digits); titles whose only
year-like token falls outside that range, such as `"Kickoff 1999"` and
`"Kickoff 2112"`, yield `none`. -/
theorem c10_year_range :
    (∀ t : String, extract_date_from_title t = none ∨
      ∃ s, extract_date_from_title t = some s ∧ dateShape s.data ∧
        2000 ≤ yearNum s ∧ yearNum s ≤ 2099) ∧
    extract_date_from_title "Kickoff 1999" = none ∧
    extract_date_from_title "Kickoff 2112" = none :=
  ⟨extract_date_shape, by decide, by decide⟩

/-- C2: `generate_meeting_id` is a pure function of (title, date): for any
hash function, titles equal after stripping surrounding whitespace and
lower-casing and equal dates yield equal ids, and a missing date is treated
as the empty string. -/
theorem c2_meeting_id_deterministic :
    (∀ (md5hex : String → String) (t1 t2 : String) (d : Option String),
        pyLower (pyStrip t1) = pyLower (pyStrip t2) →
        generate_meeting_id md5hex t1 d = generate_meeting_id md5hex t2 d) ∧
    (∀ (md5hex : String → String) (t : String),
        generate_meeting_id md5hex t none = generate_meeting_id md5hex t (some "")) := by
  constructor
  · intro md5hex t1 t2 d h
    unfold generate_meeting_id meeting_id_base
    rw [h]
  · intro md5hex t
    rfl

theorem c2_meeting_id_witness :
    generate_meeting_id id "  Team Sync " (some "2024-05-01") =
      generate_meeting_id id "team sync" (some "2024-05-01") :=
  c2_meeting_id_deterministic.1 id "  Team Sync " "team sync" (some "2024-05-01")
    (by decide)

theorem sameCore_eq_true_iff (n1 n2 : List Char) :
    sameCore n1 n2 = true ↔
      (n1 = n2 ∨
       (n1.length > 3 ∧ n2.length > 3 ∧ (subL n1 n2 ∨ subL n2 n1)) ∨
       (∃ p t1 t2, pySplit n1 = p :: t1 ∧ pySplit n2 = p :: t2 ∧ p.length > 2) ∨
       (∃ p1 t1 p2 t2 q, pySplit n1 = p1 :: t1 ∧ pySplit n2 = p2 :: t2 ∧
         (p1 :: t1).getLastD p1 = q ∧ (p2 :: t2).getLastD p2 = q ∧
         q.length > 3)) := by
  unfold sameCore
  by_cases h1 : n1 = n2
  · subst h1; simp
  · rw [if_neg h1]
    by_cases h2 : (n1.length > 3 ∧ n2.length > 3) ∧ (subL n1 n2 ∨ subL n2 n1)
    · rw [if_pos h2]
      simp only [true_iff]
      exact Or.inr (Or.inl ⟨h2.1.1, h2.1.2, h2.2⟩)
    · rw [if_neg h2]
      have h2' : ¬ (n1.length > 3 ∧ n2.length > 3 ∧ (subL n1 n2 ∨ subL n2 n1)) := by
        intro hh; exact h2 ⟨⟨hh.1, hh.2.1⟩, hh.2.2⟩
      cases hp1 : pySplit n1 with
      | nil =>
        cases hp2 : pySplit n2 <;> simp [hp1, hp2, h1, h2']
      | cons p1 t1 =>
        cases hp2 : pySplit n2 with
        | nil => simp [hp1, hp2, h1, h2']
        | cons p2 t2 =>
          simp only [hp1, hp2]
          by_cases hf : p1 = p2 ∧ p1.length > 2
          · rw [if_pos hf]
            simp only [true_iff]
            exact Or.inr (Or.inr (Or.inl ⟨p1, t1, t2, rfl, by rw [hf.1], hf.2⟩))
          · rw [if_neg hf]
            by_cases hl : (p1 :: t1).getLastD p1 = (p2 :: t2).getLastD p2 ∧
                ((p1 :: t1).getLastD p1).length > 3
            · rw [if_pos hl]
              simp only [true_iff]
              refine Or.inr (Or.inr (Or.inr
                ⟨p1, t1, p2, t2, (p1 :: t1).getLastD p1, rfl, rfl, rfl, hl.1.symm, hl.2⟩))
            · rw [if_neg hl]
              refine iff_of_false (by simp) ?_
              rintro (h | h | h | h)
              · exact h1 h
              · exact h2' h
              · obtain ⟨p, s1, s2, e1, e2, e3⟩ := h
                cases e1; cases e2
                exact hf ⟨rfl, e3⟩
              · obtain ⟨q1, s1, q2, s2, q, e1, e2, e3, e4, e5⟩ := h
                cases e1; cases e2
                exact hl ⟨e3.trans e4.symm, e3.symm ▸ e5⟩

theorem sameCore_comm (n1 n2 : List Char) : sameCore n1 n2 = sameCore n2 n1 := by
  have key : sameCore n1 n2 = true ↔ sameCore n2 n1 = true := by
    rw [sameCore_eq_true_iff, sameCore_eq_true_iff]
    constructor
    · rintro (h | h | h | h)
      · exact Or.inl h.symm
      · exact Or.inr (Or.inl ⟨h.2.1, h.1, h.2.2.symm⟩)
      · obtain ⟨p, t1, t2, a, b, c⟩ := h
        exact Or.inr (Or.inr (Or.inl ⟨p, t2, t1, b, a, c⟩))
      · obtain ⟨p1, t1, p2, t2, q, a, b, c, d, e⟩ := h
        exact Or.inr (Or.inr (Or.inr ⟨p2, t2, p1, t1, q, b, a, d, c, e⟩))
    · rintro (h | h | h | h)
      · exact Or.inl h.symm
      · exact Or.inr (Or.inl ⟨h.2.1, h.1, h.2.2.symm⟩)
      · obtain ⟨p, t1, t2, a, b, c⟩ := h
        exact Or.inr (Or.inr (Or.inl ⟨p, t2, t1, b, a, c⟩))
      · obtain ⟨p1, t1, p2, t2, q, a, b, c, d, e⟩ := h
        exact Or.inr (Or.inr (Or.inr ⟨p2, t2, p1, t1, q, b, a, d, c, e⟩))
  cases hx : sameCore n1 n2 <;> cases hy : sameCore n2 n1 <;> simp_all

/-- C9: entity resolution is symmetric: `is_same_entity a b` returns the same
boolean as `is_same_entity b a` for all strings, every clause of the decision
(normalized equality, mutual substring with both lengths > 3, equal first
tokens, equal last tokens) being symmetric, as is the empty-input guard. -/
theorem c9_same_entity_symm (a b : String) :
    is_same_entity a b = is_same_entity b a := by
  unfold is_same_entity
  by_cases ha : a = "" <;> by_cases hb : b = "" <;>
    simp [ha, hb, sameCore_comm]

/-- C5: `is_same_entity` judges two names the same entity exactly when both
raw names are nonempty and, after normalization (lower-casing, stripping
punctuation and the honorifics Mr/Mrs/Ms/Dr/Prof/Sir), one of the following
holds: the normalized names are equal; one contains the other as a substring
and both have length > 3; their first tokens are equal with length > 2; or
their last tokens are equal with length > 3.  In particular "Dr. Jane Smith"
and "Jane Smith" resolve to the same entity, while "Jane Smith" and
"Janet Brown" do not. -/
theorem c5_entity_resolution :
    (∀ name1 name2 : String,
      is_same_entity name1 name2 = true ↔
        (name1 ≠ "" ∧ name2 ≠ "" ∧
          ((normalize_name name1).data = (normalize_name name2).data ∨
           ((normalize_name name1).data.length > 3 ∧
            (normalize_name name2).data.length > 3 ∧
            (subL (normalize_name name1).data (normalize_name name2).data ∨
             subL (normalize_name name2).data (normalize_name name1).data)) ∨
           (∃ p t1 t2, pySplit (normalize_name name1).data = p :: t1 ∧
             pySplit (normalize_name name2).data = p :: t2 ∧ p.length > 2) ∨
           (∃ p1 t1 p2 t2 q,
             pySplit (normalize_name name1).data = p1 :: t1 ∧
             pySplit (normalize_name name2).data = p2 :: t2 ∧
             (p1 :: t1).getLastD p1 = q ∧ (p2 :: t2).getLastD p2 = q ∧
             q.length > 3)))) ∧
    is_same_entity "Dr. Jane Smith" "Jane Smith" = true ∧
    is_same_entity "Jane Smith" "Janet Brown" = false := by
  refine ⟨?_, by decide, by decide⟩
  intro name1 name2
  unfold is_same_entity
  by_cases ha : name1 = ""
  · simp [ha]
  · by_cases hb : name2 = ""
    · simp [ha, hb]
    · simp only [ha, hb, or_self, if_false, false_or, or_false]
      rw [sameCore_eq_true_iff]
      constructor
      · intro h; exact ⟨ha, hb, h⟩
      · intro h; exact h.2.2

theorem validate_false_iff (n : VNode) :
    validate_node_data n = false ↔
      ((∃ l ∈ n.labels, ∃ fs, findKey required_fields l = some fs ∧
          ∃ f ∈ fs, truthyS (getField n f) = false) ∨
       (∃ d, n.date = some d ∧ pyDateFmt d.data = false) ∨
       (∃ f ∈ text_fields, ∃ s, getField n f = some s ∧
          (stripWS s.data).length < 2)) := by
  unfold validate_node_data
  simp only [Bool.and_eq_false_iff]
  rw [or_assoc]
  apply or_congr
  · rw [List.all_eq_false]
    constructor
    · rintro ⟨l, hl, hP⟩
      rw [Bool.not_eq_true] at hP
      cases hfk : findKey required_fields l with
      | none => rw [hfk] at hP; simp at hP
      | some fs =>
        rw [hfk] at hP
        rw [List.all_eq_false] at hP
        obtain ⟨f, hf, hft⟩ := hP
        exact ⟨l, hl, fs, hfk, f, hf, by simpa using hft⟩
    · rintro ⟨l, hl, fs, hfk, f, hf, hft⟩
      refine ⟨l, hl, ?_⟩
      rw [Bool.not_eq_true, hfk, List.all_eq_false]
      exact ⟨f, hf, by simp [hft]⟩
  · apply or_congr
    · constructor
      · intro h
        cases hd : n.date with
        | none => rw [hd] at h; simp at h
        | some d => rw [hd] at h; exact ⟨d, rfl, h⟩
      · rintro ⟨d, hd, hfmt⟩
        rw [hd]
        exact hfmt
    · rw [List.all_eq_false]
      constructor
      · rintro ⟨f, hf, hP⟩
        rw [Bool.not_eq_true] at hP
        cases hgf : getField n f with
        | none => rw [hgf] at hP; simp at hP
        | some s =>
          rw [hgf] at hP
          refine ⟨f, hf, s, hgf, ?_⟩
          have : decide (2 ≤ (stripWS s.data).length) = false := hP
          simp only [decide_eq_false_iff_not] at this
          omega
      · rintro ⟨f, hf, s, hgf, hlen⟩
        refine ⟨f, hf, ?_⟩
        rw [Bool.not_eq_true, hgf]
        show decide (2 ≤ (stripWS s.data).length) = false
        simp only [decide_eq_false_iff_not]
        omega

/-- C6: a node fails `validate_node_data` exactly when it misses a per-kind
required field, carries a `date` not matching `^\d{4}-\d{2}-\d{2}$`, or has a
text-bearing field shorter than 2 characters after trimming; every failing
node is excluded from the commit batch and recorded among the failed nodes,
while valid nodes pass the filter.  In particular a Document node with
`date = "05-01-2024"` is rejected and excluded. -/
theorem c6_validation_rejection :
    (∀ n : VNode, validate_node_data n = false ↔
      ((∃ l ∈ n.labels, ∃ fs, findKey required_fields l = some fs ∧
          ∃ f ∈ fs, truthyS (getField n f) = false) ∨
       (∃ d, n.date = some d ∧ pyDateFmt d.data = false) ∨
       (∃ f ∈ text_fields, ∃ s, getField n f = some s ∧
          (stripWS s.data).length < 2))) ∧
    (∀ (nodes : List VNode) (n : VNode), n ∈ nodes →
        validate_node_data n = false →
        n ∉ batch_valid_nodes nodes ∧ n ∈ batch_failed_nodes nodes) ∧
    (validate_node_data
        ⟨["Document"], some "Doc A", none, none, none, none, some "05-01-2024"⟩ = false ∧
      (⟨["Document"], some "Doc A", none, none, none, none, some "05-01-2024"⟩ : VNode) ∉
        batch_valid_nodes
          [⟨["Document"], some "Doc A", none, none, none, none, some "05-01-2024"⟩] ∧
      (⟨["Document"], some "Doc A", none, none, none, none, some "05-01-2024"⟩ : VNode) ∈
        batch_failed_nodes
          [⟨["Document"], some "Doc A", none, none, none, none, some "05-01-2024"⟩]) := by
  refine ⟨validate_false_iff, ?_, by decide, by decide, by decide⟩
  intro nodes n hmem hval
  constructor
  · intro hin
    have := (List.mem_filter.mp hin).2
    rw [hval] at this
    exact absurd this (by simp)
  · exact List.mem_filter.mpr ⟨hmem, by simp [hval]⟩

theorem c6_validation_witness :
    (⟨["Document"], some "Doc A", none, none, none, none, some "05-01-2024"⟩ : VNode) ∉
      batch_valid_nodes
        [⟨["Document"], some "Doc A", none, none, none, none, some "05-01-2024"⟩] ∧
    (⟨["Document"], some "Doc A", none, none, none, none, some "05-01-2024"⟩ : VNode) ∈
      batch_failed_nodes
        [⟨["Document"], some "Doc A", none, none, none, none, some "05-01-2024"⟩] :=
  c6_validation_rejection.2.1
    [⟨["Document"], some "Doc A", none, none, none, none, some "05-01-2024"⟩]
    ⟨["Document"], some "Doc A", none, none, none, none, some "05-01-2024"⟩
    (by decide) (by decide)

theorem mergeStore_unique {st : List StoredNode} {l kn kv : String} {p : VNode}
    (h : UniqueKeys st) : UniqueKeys (mergeStore st l kn kv p) := by
  unfold mergeStore UniqueKeys
  unfold UniqueKeys at h
  split
  · rw [List.pairwise_map]
    apply h.imp
    intro a b hab
    by_cases ha : a.label = l ∧ a.keyName = kn ∧ a.keyVal = kv
    · by_cases hb : b.label = l ∧ b.keyName = kn ∧ b.keyVal = kv
      · rw [if_pos ha, if_pos hb]; simpa using hab
      · rw [if_pos ha, if_neg hb]; simpa using hab
    · by_cases hb : b.label = l ∧ b.keyName = kn ∧ b.keyVal = kv
      · rw [if_neg ha, if_pos hb]; simpa using hab
      · rw [if_neg ha, if_neg hb]; exact hab
  · rename_i hany
    rw [List.pairwise_append]
    refine ⟨h, List.pairwise_singleton _ _, ?_⟩
    intro a ha b hb
    rw [List.mem_singleton] at hb
    subst hb
    intro hcon
    rw [Bool.not_eq_true, List.any_eq_false] at hany
    exact absurd (by simpa using hcon) (by simpa using hany a ha)

theorem commitNode_unique {st : List StoredNode} {n : VNode}
    (h : UniqueKeys st) : UniqueKeys (commitNode st n) := by
  unfold commitNode
  cases mergeKey n with
  | some kv => exact mergeStore_unique h
  | none => exact h

theorem node_commit_unique (batch : List VNode) :
    ∀ st, UniqueKeys st → UniqueKeys (node_commit st batch) := by
  induction batch with
  | nil => intro st h; exact h
  | cons n rest ih =>
    intro st h
    exact ih (commitNode st n) (commitNode_unique h)

theorem batches_unique (batches : List (List VNode)) :
    ∀ st, UniqueKeys st → UniqueKeys (batches.foldl node_commit st) := by
  induction batches with
  | nil => intro st h; exact h
  | cons b rest ih =>
    intro st h
    exact ih (node_commit st b) (node_commit_unique b st h)

/-- C1: every node committed in the node-commit phase is merged by its
kind-determined key (title, then name, then value, in that priority; a node
lacking all three is skipped), so that after processing any sequence of
batches starting from an empty store no two persisted nodes of the same kind
share the same key value; and committing the same Document node twice leaves
exactly one persisted node for its title. -/
theorem c1_node_merge_uniqueness :
    (∀ batches : List (List VNode),
      UniqueKeys (batches.foldl node_commit [])) ∧
    (∀ (d : VNode) (t : String), d.title = some t →
      node_commit (node_commit [] [d]) [d] =
        [⟨d.labels.headD "", "title", t, d⟩]) := by
  constructor
  · intro batches
    exact batches_unique batches [] (List.Pairwise.nil)
  · intro d t hd
    simp only [node_commit, List.foldl_cons, List.foldl_nil, commitNode,
      mergeKey, hd]
    simp [mergeStore]

theorem c1_node_merge_witness :
    node_commit
        (node_commit [] [⟨["Document"], some "Doc A", none, none, none, none, none⟩])
        [⟨["Document"], some "Doc A", none, none, none, none, none⟩] =
      [⟨"Document", "title", "Doc A",
        ⟨["Document"], some "Doc A", none, none, none, none, none⟩⟩] :=
  c1_node_merge_uniqueness.2
    ⟨["Document"], some "Doc A", none, none, none, none, none⟩ "Doc A" rfl

theorem pyMin_eq_min (a b : ℚ) : pyMin a b = min a b := by
  rw [pyMin, min_def]

theorem natQ_cast (n : ℕ) : natQ n = (n : ℚ) := by
  simp [natQ, Rat.mkRat_eq_div]

theorem conf_eq (co : ℕ) :
    pyMin (mkRat 9 10) (mkRat 3 10 + natQ co * mkRat 1 10) =
      min (9/10) (3/10 + (co : ℚ) * (1/10)) := by
  rw [pyMin_eq_min, natQ_cast]
  norm_num [Rat.mkRat_eq_div]

theorem strength_eq (co : ℕ) :
    pyMin 1 (natQ co * mkRat 1 5) = min 1 ((co : ℚ) * (1/5)) := by
  rw [pyMin_eq_min, natQ_cast]
  norm_num [Rat.mkRat_eq_div]

theorem roundHalfEven_intCast (n : ℤ) : roundHalfEven (n : ℚ) = n := by
  unfold roundHalfEven
  rw [Int.floor_intCast, sub_self, if_pos]
  rw [Rat.mkRat_eq_div]
  norm_num

theorem pyRound2_strength (co : ℕ) :
    pyRound2 (pyMin 1 (natQ co * mkRat 1 5)) = pyMin 1 (natQ co * mkRat 1 5) := by
  rw [strength_eq]
  unfold pyRound2
  have h100 : min 1 ((co : ℚ) * (1/5)) * 100 =
      (((min 100 (20 * co) : ℕ) : ℤ) : ℚ) := by
    push_cast
    rcases le_total ((co : ℚ) * (1/5)) 1 with h | h
    · rw [min_eq_right h, min_eq_right (by linarith : (20 * (co : ℚ)) ≤ 100)]
      ring
    · rw [min_eq_left h, min_eq_left (by linarith : (100 : ℚ) ≤ 20 * co)]
      norm_num
  rw [h100, roundHalfEven_intCast, Rat.mkRat_eq_div]
  push_cast
  rcases le_total ((co : ℚ) * (1/5)) 1 with h | h
  · rw [min_eq_right (by linarith : (20 * (co : ℚ)) ≤ 100), min_eq_right h]
    ring
  · rw [min_eq_left (by linarith : (100 : ℚ) ≤ 20 * co), min_eq_left h]
    norm_num

/-- C4: every co-occurrence `RELATES_TO` relationship carries
`confidence = min(0.9, 0.3 + 0.1 * co_occurrence_count)` with a count ≥ 1, so
its confidence lies in [0.3, 0.9]; every strength-pass `RELATES_TO`
relationship carries `strength = min(1.0, 0.2 * shared_paragraph_count)` and
is created only when that strength is strictly greater than 0.2, so every
persisted strength lies in (0.2, 1.0]. -/
theorem c4_confidence_strength_bounds :
    (∀ (content : String) (node_map : List (String × PNode)) (r : ERel),
        r ∈ cooccur_rels content node_map →
        ∃ co : Nat, 1 ≤ co ∧ r.co_occurrence_count = some co ∧
          r.confidence = some (min (9/10) (3/10 + (co : ℚ) * (1/10))) ∧
          ∃ q, r.confidence = some q ∧ 3/10 ≤ q ∧ q ≤ 9/10) ∧
    (∀ (title content : String) (node_map : List (String × PNode)) (r : ERel),
        r ∈ strength_rels title content node_map →
        ∃ co : Nat, r.strength = some (min 1 ((co : ℚ) * (1/5))) ∧
          ∃ q, r.strength = some q ∧ 1/5 < q ∧ q ≤ 1) := by
  constructor
  · intro content node_map r hmem
    simp only [cooccur_rels, List.mem_flatten, List.mem_map] at hmem
    obtain ⟨l, ⟨an, han, heq⟩, hrl⟩ := hmem
    subst heq
    rw [List.mem_filterMap] at hrl
    obtain ⟨bn, hbn, hf⟩ := hrl
    split at hf
    case isFalse => exact absurd hf (by simp)
    split at hf
    case isFalse => exact absurd hf (by simp)
    split at hf
    case isFalse => exact absurd hf (by simp)
    split at hf
    case isFalse => exact absurd hf (by simp)
    split at hf
    case isFalse => exact absurd hf (by simp)
    rename_i hco
    cases hf
    refine ⟨coParaCount content.data (entityName an.1 an.2).data
      (entityName bn.1 bn.2).data, hco, rfl, congrArg some (conf_eq _), ?_⟩
    refine ⟨min (9/10) (3/10 + (coParaCount content.data
      (entityName an.1 an.2).data (entityName bn.1 bn.2).data : ℚ) * (1/10)),
      congrArg some (conf_eq _), ?_, min_le_left _ _⟩
    apply le_min
    · norm_num
    · have h0 : (0 : ℚ) ≤ (coParaCount content.data (entityName an.1 an.2).data
          (entityName bn.1 bn.2).data : ℚ) * (1/10) := by positivity
      linarith
  · intro title content node_map r hmem
    simp only [strength_rels, List.mem_filterMap] at hmem
    obtain ⟨kk, hkk, hf⟩ := hmem
    split at hf
    case isFalse => exact absurd hf (by simp)
    split at hf
    case h_2 => exact absurd hf (by simp)
    rename_i n1 n2 heq1 heq2
    split at hf
    case isFalse => exact absurd hf (by simp)
    split at hf
    case isFalse => exact absurd hf (by simp)
    rename_i hgt
    cases hf
    have hval : pyRound2 (pyMin 1 (natQ (coParaCount content.data
        (entityName kk.1 n1).data (entityName kk.2 n2).data) * mkRat 1 5)) =
        min 1 ((coParaCount content.data (entityName kk.1 n1).data
          (entityName kk.2 n2).data : ℚ) * (1/5)) := by
      rw [pyRound2_strength, strength_eq]
    have hgt2 : (1/5 : ℚ) < min 1 ((coParaCount content.data
        (entityName kk.1 n1).data (entityName kk.2 n2).data : ℚ) * (1/5)) := by
      rw [← strength_eq]
      have h15 : mkRat 1 5 = (1/5 : ℚ) := by norm_num [Rat.mkRat_eq_div]
      rw [← h15]
      exact hgt
    refine ⟨coParaCount content.data (entityName kk.1 n1).data
      (entityName kk.2 n2).data, congrArg some hval, ?_⟩
    exact ⟨_, congrArg some hval, hgt2, min_le_left _ _⟩

unseal Rat.add Rat.mul Rat.sub in
theorem c4_bounds_witness :
    (∃ co : Nat, 1 ≤ co ∧
      (ERel.mk "RELATES_TO" "Alice" "Bobby" (some (mkRat 1 2)) none (some 2)
        (some "Alice Bobby Alice Bobby".data) none).co_occurrence_count =
          some co ∧
      (ERel.mk "RELATES_TO" "Alice" "Bobby" (some (mkRat 1 2)) none (some 2)
        (some "Alice Bobby Alice Bobby".data) none).confidence =
          some (min (9/10) (3/10 + (co : ℚ) * (1/10))) ∧
      ∃ q, (ERel.mk "RELATES_TO" "Alice" "Bobby" (some (mkRat 1 2)) none (some 2)
        (some "Alice Bobby Alice Bobby".data) none).confidence = some q ∧
        3/10 ≤ q ∧ q ≤ 9/10) ∧
    (∃ co : Nat,
      (ERel.mk "RELATES_TO" "Alice" "Bobby" none (some (mkRat 2 5)) none none
        (some "T")).strength = some (min 1 ((co : ℚ) * (1/5))) ∧
      ∃ q, (ERel.mk "RELATES_TO" "Alice" "Bobby" none (some (mkRat 2 5)) none none
        (some "T")).strength = some q ∧ 1/5 < q ∧ q ≤ 1) :=
  ⟨c4_confidence_strength_bounds.1 "Alice Bobby\n\nAlice Bobby"
      [("Alice", ⟨"Person", some "Alice"⟩), ("Bobby", ⟨"Person", some "Bobby"⟩)]
      (ERel.mk "RELATES_TO" "Alice" "Bobby" (some (mkRat 1 2)) none (some 2)
        (some "Alice Bobby Alice Bobby".data) none) (by decide),
    c4_confidence_strength_bounds.2 "T" "Alice Bobby\n\nAlice Bobby"
      [("Alice", ⟨"Person", some "Alice"⟩), ("Bobby", ⟨"Person", some "Bobby"⟩)]
      (ERel.mk "RELATES_TO" "Alice" "Bobby" none (some (mkRat 2 5)) none none
        (some "T")) (by decide)⟩

theorem findKey_append_left {α : Type} (m l : List (String × α)) (p : String)
    (r : α) (h : findKey m p = some r) : findKey (m ++ l) p = some r := by
  induction m with
  | nil => simp [findKey] at h
  | cons kv rest ih =>
    obtain ⟨k, v⟩ := kv
    rw [List.cons_append]
    by_cases hk : k = p
    · simp only [findKey, if_pos hk] at h ⊢
      exact h
    · simp only [findKey, if_neg hk] at h ⊢
      exact ih h

theorem findKey_append_new {α : Type} (m : List (String × α)) (p : String)
    (r : α) (h : findKey m p = none) : findKey (m ++ [(p, r)]) p = some r := by
  induction m with
  | nil => simp [findKey]
  | cons kv rest ih =>
    obtain ⟨k, v⟩ := kv
    rw [List.cons_append]
    by_cases hk : k = p
    · simp only [findKey, if_pos hk] at h
      exact absurd h (by simp)
    · simp only [findKey, if_neg hk] at h ⊢
      exact ih h

theorem attendLoop1_map_mono : ∀ (ps : List String) (nm : List (String × NRef))
    (rs : List MRel) (p : String) (r : NRef), findKey nm p = some r →
    findKey (attendLoop1 ps nm rs).1 p = some r := by
  intro ps
  induction ps with
  | nil => intro nm rs p r h; simpa [attendLoop1] using h
  | cons q rest ih =>
    intro nm rs p r h
    have hnm2 : findKey
        (if (findKey nm q).isSome then nm else nm ++ [(q, NRef.person q)]) p =
        some r := by
      split
      · exact h
      · exact findKey_append_left _ _ _ _ h
    simp only [attendLoop1]
    cases hq : findKey
        (if (findKey nm q).isSome then nm else nm ++ [(q, NRef.person q)]) q with
    | some r2 => exact ih _ _ _ _ hnm2
    | none => exact ih _ _ _ _ hnm2

theorem attendLoop1_covers : ∀ (ps : List String) (nm : List (String × NRef))
    (rs : List MRel) (p : String), p ∈ ps →
    ∃ r, findKey (attendLoop1 ps nm rs).1 p = some r := by
  intro ps
  induction ps with
  | nil => intro nm rs p hp; exact absurd hp (by simp)
  | cons q rest ih =>
    intro nm rs p hp
    have hq2 : ∃ r2, findKey
        (if (findKey nm q).isSome then nm else nm ++ [(q, NRef.person q)]) q =
        some r2 := by
      cases hnq : findKey nm q with
      | some r0 =>
        refine ⟨r0, ?_⟩
        rw [if_pos]
        · exact hnq
        · rfl
      | none =>
        refine ⟨NRef.person q, ?_⟩
        rw [if_neg]
        · exact findKey_append_new _ _ _ hnq
        · simp
    obtain ⟨r2, hr2⟩ := hq2
    rcases List.mem_cons.mp hp with hpq | hpr
    · subst hpq
      simp only [attendLoop1]
      rw [hr2]
      exact ⟨r2, attendLoop1_map_mono _ _ _ _ _ hr2⟩
    · simp only [attendLoop1]
      rw [hr2]
      exact ih _ _ _ hpr

theorem topicsLoop_map_mono : ∀ (ts : List (List Char))
    (nm : List (String × NRef)) (rs : List MRel) (p : String) (r : NRef),
    findKey nm p = some r → findKey (topicsLoop ts nm rs).1 p = some r := by
  intro ts
  induction ts with
  | nil => intro nm rs p r h; simpa [topicsLoop] using h
  | cons t rest ih =>
    intro nm rs p r h
    simp only [topicsLoop]
    split
    · exact ih _ _ _ _ (findKey_append_left _ _ _ _ h)
    · exact ih _ _ _ _ h

theorem decisionsLoop_map_mono (d : Option String) :
    ∀ (ds : List (Nat × List Char)) (nm : List (String × NRef))
      (rs : List MRel) (p : String) (r : NRef),
    findKey nm p = some r → findKey (decisionsLoop d ds nm rs).1 p = some r := by
  intro ds
  induction ds with
  | nil => intro nm rs p r h; simpa [decisionsLoop] using h
  | cons idd rest ih =>
    intro nm rs p r h
    obtain ⟨i, dd⟩ := idd
    simp only [decisionsLoop]
    split
    · exact ih _ _ _ _ (findKey_append_left _ _ _ _ h)
    · exact ih _ _ _ _ h

theorem actionsLoop_map_mono (d : Option String) :
    ∀ (acts : List (Nat × (List Char × Option (List Char))))
      (nm : List (String × NRef)) (rs : List MRel) (p : String) (r : NRef),
    findKey nm p = some r → findKey (actionsLoop d acts nm rs).1 p = some r := by
  intro acts
  induction acts with
  | nil => intro nm rs p r h; simpa [actionsLoop] using h
  | cons iia rest ih =>
    intro nm rs p r h
    obtain ⟨i, ia⟩ := iia
    simp only [actionsLoop]
    split
    · rename_i hlen
      cases ia.2 with
      | some asg =>
        cases hfa : findAssignee
            (nm ++ [("ActionItem:" ++ toString i, NRef.actionN i (String.mk ia.1))])
            (String.mk asg) with
        | some r2 =>
          simp only [hfa]
          exact ih _ _ _ _ (findKey_append_left _ _ _ _ h)
        | none =>
          simp only [hfa]
          exact ih _ _ _ _
            (findKey_append_left _ _ _ _ (findKey_append_left _ _ _ _ h))
      | none => exact ih _ _ _ _ (findKey_append_left _ _ _ _ h)
    · exact ih _ _ _ _ h

theorem attendLoop2_rs_mono (d : Option String) : ∀ (ps : List String)
    (nm : List (String × NRef)) (rs : List MRel) (x : MRel), x ∈ rs →
    x ∈ attendLoop2 d ps nm rs := by
  intro ps
  induction ps with
  | nil => intro nm rs x hx; simpa [attendLoop2] using hx
  | cons q rest ih =>
    intro nm rs x hx
    simp only [attendLoop2]
    cases hq : findKey nm q with
    | some r => exact ih _ _ _ (by simp [hx])
    | none => exact ih _ _ _ hx

theorem attendLoop2_emits (d : Option String) : ∀ (ps : List String)
    (nm : List (String × NRef)) (rs : List MRel) (p : String) (r : NRef),
    p ∈ ps → findKey nm p = some r →
    (⟨NRef.docRef, "ATTENDED_BY", r, dProps d⟩ : MRel) ∈
      attendLoop2 d ps nm rs := by
  intro ps
  induction ps with
  | nil => intro nm rs p r hp; exact absurd hp (by simp)
  | cons q rest ih =>
    intro nm rs p r hp hk
    rcases List.mem_cons.mp hp with hpq | hpr
    · subst hpq
      simp only [attendLoop2]
      rw [hk]
      exact attendLoop2_rs_mono d _ _ _ _ (by simp)
    · simp only [attendLoop2]
      cases hq : findKey nm q with
      | some r2 => exact ih _ _ _ _ hpr hk
      | none => exact ih _ _ _ _ hpr hk

/-- C7 (amended): for every document detected as a meeting whose title-derived
date is known, the meeting assembly contains, for every extracted
participant, an ATTENDED_BY edge from the Document node to that participant's
resolved node carrying `on_date` equal to the document date.  (An additional
ATTENDED_BY edge without the timestamp is also created for each participant
by the first attendance loop, which is why not every ATTENDED_BY edge carries
`on_date`; see the counterexample.) -/
theorem c7_attended_by_on_date (title content : String)
    (node_map0 : List (String × NRef)) (nlpChunks : List String) (d : String)
    (hm : (is_meeting_note title content ||
      ((classify_document_type title content).1 == "Meeting")) = true)
    (hd : extract_date_from_title title = some d) :
    ∀ p ∈ (extract_participants content).map String.mk,
      ∃ ref,
        findKey (meeting_assembly content (some d) node_map0 nlpChunks).2 p =
          some ref ∧
        (⟨NRef.docRef, "ATTENDED_BY", ref, [("on_date", d)]⟩ : MRel) ∈
          doc_rels title content node_map0 nlpChunks := by
  intro p hp
  obtain ⟨r1, hr1⟩ := attendLoop1_covers
    ((extract_participants content).map String.mk) node_map0 [] p hp
  have hr4 : findKey (meeting_assembly content (some d) node_map0 nlpChunks).2
      p = some r1 := by
    simp only [meeting_assembly]
    exact actionsLoop_map_mono _ _ _ _ _ _
      (decisionsLoop_map_mono _ _ _ _ _ _
        (topicsLoop_map_mono _ _ _ _ _ hr1))
  refine ⟨r1, hr4, ?_⟩
  unfold doc_rels
  rw [if_pos hm, hd]
  have hmem : (⟨NRef.docRef, "ATTENDED_BY", r1, dProps (some d)⟩ : MRel) ∈
      (meeting_assembly content (some d) node_map0 nlpChunks).1 := by
    simp only [meeting_assembly]
    apply attendLoop2_emits
    · exact hp
    · simpa only [meeting_assembly] using hr4
  simpa [dProps] using hmem

/-- C7 counterexample: the claim as stated fails — for a meeting document
with a known date, the produced relationship set also contains ATTENDED_BY
edges from the first attendance loop that carry no `on_date` property, so not
every ATTENDED_BY edge to a participant carries the timestamp. -/
theorem c7_counterexample :
    ¬ (∀ r ∈ doc_rels "Sync 2024-05-01"
        "Participants: Alice Johnson\n\nAgenda: x" [] [],
        r.typ = "ATTENDED_BY" → ("on_date", "2024-05-01") ∈ r.props) := by
  decide

theorem c7_attended_witness :
    ∃ ref,
      findKey (meeting_assembly "Participants: Alice Johnson\n\nAgenda: x"
        (some "2024-05-01") [] []).2 "Alice Johnson" = some ref ∧
      (⟨NRef.docRef, "ATTENDED_BY", ref, [("on_date", "2024-05-01")]⟩ : MRel) ∈
        doc_rels "Sync 2024-05-01" "Participants: Alice Johnson\n\nAgenda: x"
          [] [] :=
  c7_attended_by_on_date "Sync 2024-05-01"
    "Participants: Alice Johnson\n\nAgenda: x" [] [] "2024-05-01"
    (by decide) (by decide) "Alice Johnson" (by decide)

/-- C8: evaluation of the extraction pipeline at the specification's meeting
scenario.  The participant, topic and attendance expectations hold (Alice
Johnson and Bob Lee become Person nodes with ATTENDED_BY edges; a Topic node
"Budget Review" is linked via DISCUSSES; an ActionItem is linked via
CREATED_ACTION), but the code diverges from the expected Decision and
assignee: the decision-item splitter `[\n•\-\d+\.]` splits on the digit of
"Q3", yielding Decision fragments "Approved the Q" and "budget increase"
instead of "Approved the Q3 budget increase", and the greedy assignee
pattern `@([A-Za-z\s]+)` captures "Alice prepare the final report", so the
ASSIGNED_TO edge attaches to a fresh Person of that name rather than to
Alice Johnson; the fallback line scan also adds a spurious participant
"Action Items". -/
theorem c8_meeting_scenario_divergence :
    ((extract_decisions_actions scenario_content).1.map String.mk =
      ["Approved the Q", "budget increase"] ∧
     "Approved the Q3 budget increase".data ∉
       (extract_decisions_actions scenario_content).1 ∧
     (extract_decisions_actions scenario_content).2.map
         (fun p => (String.mk p.1, p.2.map String.mk)) =
       [("@Alice prepare the final report",
         some "Alice prepare the final report")] ∧
     (extract_participants scenario_content).map String.mk =
       ["Alice Johnson", "Bob Lee", "Action Items"]) ∧
    ((⟨NRef.docRef, "ATTENDED_BY", NRef.person "Alice Johnson", []⟩ : MRel) ∈
       doc_rels "Untitled" scenario_content [] [] ∧
     (⟨NRef.docRef, "ATTENDED_BY", NRef.person "Bob Lee", []⟩ : MRel) ∈
       doc_rels "Untitled" scenario_content [] [] ∧
     (⟨NRef.docRef, "DISCUSSES", NRef.topic "Budget Review", []⟩ : MRel) ∈
       doc_rels "Untitled" scenario_content [] [] ∧
     (⟨NRef.docRef, "CREATED_ACTION",
        NRef.actionN 0 "@Alice prepare the final report", []⟩ : MRel) ∈
       doc_rels "Untitled" scenario_content [] [] ∧
     ((doc_rels "Untitled" scenario_content [] []).filter
         (fun r => r.typ == "ASSIGNED_TO")).map MRel.dst =
       [NRef.person "Alice prepare the final report"] ∧
     ∀ r ∈ doc_rels "Untitled" scenario_content [] [],
       r.typ = "ASSIGNED_TO" → r.dst ≠ NRef.person "Alice Johnson") := by
  refine ⟨⟨?_, ?_, ?_, ?_⟩, ?_, ?_, ?_, ?_, ?_, ?_⟩ <;> decide
